import Mathlib

/-!
# Verification of the clizen argument-resolution and dispatch engine

A shallow embedding of `src/core/cli.ts` (the `cli` processor), together with
the `validateChoice` utility and the alias model, and proofs of the spec's
claims about them.

Modelling conventions:
* JS strings are `String`, JS numbers occurring in `FlagValue` are modelled as
  `Int` (the library only compares them via `String(...)` conversion).
* The mutable `Context` object is threaded explicitly through the phases.
* `warn(...)` calls are modelled as structured `Warning` values accumulated in
  a list; each constructor corresponds to one message template of the source
  and carries the interpolated data.
* The source's handlers (`Handler = (ctx) => void | Promise<void>`) have two
  distinct failure modes which the engine treats differently:
  `Promise.resolve(handler(context)).catch(...)` (`cli.ts` lines 310 and 382)
  catches a *rejected promise* and turns it into a warning, but a
  *synchronous throw* is raised while `handler(context)` itself is evaluated,
  before the `.catch` attaches — it escapes, skips the remaining handlers and
  phases 4–5, and rejects the call.  `Definition` models handlers by their
  caught failure mode only (`Context → Except String Unit`); `DefinitionJs`
  and `cliJs` model the full three-outcome behaviour (fulfilled / rejected /
  synchronous throw) including the abort path, and `cliJs_no_throw` proves
  that on handlers that never throw synchronously the two models coincide
  with no abort.  Handler mutation of the shared context object is not
  modelled; no claim depends on it.
* The `Set` objects (`knownAliases`, `usedValues`, `processedFlags`) are
  modelled as lists with `addToSet` (insertion-order, no duplicates), which is
  exactly the observable behaviour of a JS `Set` used only via `add`/`has`.
* In addition the result carries a ghost field `consumed` recording, in order,
  every *event* in which an argv token was claimed as a value (every call of
  `usedValues.add(...)` in the source); unlike the idempotent set it records
  one entry per consumption event.
* `context.options` (the shallow merge of matched definitions' option bags) is
  not modelled: no claim mentions it.
-/

namespace Clizen

/-- Type `FlagValue` from `src/core/flag.ts`: `string | boolean | number`. -/
inductive FlagValue where
  | str (s : String)
  | bool (b : Bool)
  | num (n : Int)
deriving DecidableEq, Repr

/-- A value stored in `context.flags`: `FlagValue | FlagValue[]`. -/
inductive StoredValue where
  | single (v : FlagValue)
  | list (vs : List FlagValue)
deriving DecidableEq, Repr

/-- The `'command' | 'flag'` tag of a definition. -/
inductive DefType where
  | command
  | flag
deriving DecidableEq, Repr

/-- Type `Alias` from `src/utils/alias.ts`: an ordered nonempty list of literal
names; element 0 is the primary alias.  The nonemptiness that the library's
`alias(...)` normalizer guarantees for its documented inputs is captured by
separating the head. -/
structure Alias where
  primary : String
  rest : List String := []
deriving DecidableEq, Repr

/-- The full alias list, `alias.value` in the source. -/
def Alias.value (a : Alias) : List String := a.primary :: a.rest

/-- The option bag of a definition (union of `CommandOptions` and
`FlagOptions` fields the engine reads).  An absent option object is the
all-default bag, matching JS `options?.x` falsiness. -/
structure Options where
  repeatable : Bool := false
  isBoolean : Bool := false
  isRequired : Bool := false
  defaultValue : Option FlagValue := none
  choices : Option (List FlagValue) := none
  default : Bool := false
deriving DecidableEq, Repr

/-- One `warn(...)` message template of the engine, with its interpolated
data. -/
inductive Warning where
  | duplicateAlias (a : String)
  | nonRepeatable (t : DefType) (primaryAlias : String) (occurrences : Nat)
  | invalidChoice (flagName : String) (value : FlagValue) (choices : List FlagValue)
  | missingRequired (primaryAlias : String)
  | handlerError (isDefault : Bool) (t : DefType) (primaryAlias : String) (msg : String)
  | multipleDefaults (chosen : String)
  | unknownArgs (args : List String)
deriving DecidableEq, Repr

/-- The aggregate `Context` built by a `cli` call (`commands`, `flags`,
`input`; `options` is not modelled). `flags` is an insertion-ordered
association list, mirroring a JS object. -/
structure Context where
  commands : List String := []
  flags : List (String × StoredValue) := []
  input : Option FlagValue := none
deriving DecidableEq, Repr

/-- A command or flag definition as consumed by `cli`, with the handler
modelled by its caught failure mode only: `Except.error msg` is a rejected
promise, which `Promise.resolve(handler(context)).catch(...)` intercepts.  A
synchronous throw — which escapes that `.catch` and aborts the call — is not
representable here; it is modelled by `DefinitionJs` and `cliJs` below, of
which this model is provably the thrown-free restriction
(`cliJs_no_throw`). -/
structure Definition where
  type : DefType
  «alias» : Alias
  handler : Context → Except String Unit
  options : Options := {}

/-- Outcome of invoking one of the source's handlers
(`(ctx) => void | Promise<void>`): it can return normally (or return a
promise that fulfills), return a promise that rejects with an error carrying
a message, or throw synchronously while `handler(context)` is being
evaluated.  The engine's `.catch` sees only the second outcome. -/
inductive HandlerResult where
  | ok
  | rejected (msg : String)
  | thrown (msg : String)
deriving DecidableEq, Repr

/-- A command or flag definition with the full three-outcome handler
behaviour, used to model the uncaught synchronous-throw path of
`cli.ts` lines 308–317 and 382–386. -/
structure DefinitionJs where
  type : DefType
  «alias» : Alias
  handler : Context → HandlerResult
  options : Options := {}

/-- The caught-failure view of a three-outcome definition: rejected promises
map to `Except.error`; a synchronous throw has no counterpart and is mapped
to `Except.error` as well, which is only ever used under a no-throw
hypothesis. -/
def DefinitionJs.toCaught (d : DefinitionJs) : Definition :=
  { type := d.type
    «alias» := d.«alias»
    handler := fun ctx =>
      match d.handler ctx with
      | HandlerResult.ok => Except.ok ()
      | HandlerResult.rejected msg => Except.error msg
      | HandlerResult.thrown msg => Except.error msg
    options := d.options }

/-- The handler-free part of a definition (used to state that the engine's
resolution never depends on handler outcomes). -/
structure DefShape where
  type : DefType
  «alias» : Alias
  options : Options
deriving DecidableEq, Repr

/-- Projection of a definition to its handler-free shape. -/
def Definition.shape (d : Definition) : DefShape :=
  { type := d.type, «alias» := d.«alias», options := d.options }

/-! ## Small helpers -/

/-- JS `s.startsWith('-')`: the first character is a dash. -/
def startsWithDash (s : String) : Bool :=
  match s.data with
  | [] => false
  | c :: _ => c = '-'

/-- JS `Set.prototype.add`: keep insertion order, ignore duplicates. -/
def addToSet (s : List String) (x : String) : List String :=
  if x ∈ s then s else s ++ [x]

/-- JS object spread update `{...m, [k]: v}`: replace the value at `k` in
place if present, else append. -/
def setKey : List (String × StoredValue) → String → StoredValue → List (String × StoredValue)
  | [], k, v => [(k, v)]
  | (k0, v0) :: rest, k, v =>
    if k0 = k then (k, v) :: rest else (k0, v0) :: setKey rest k v

/-- Association-list lookup in `context.flags` (JS property read). -/
def lookupFlag : List (String × StoredValue) → String → Option StoredValue
  | [], _ => none
  | (k0, v0) :: rest, k => if k0 = k then some v0 else lookupFlag rest k

/-- The keys of `context.flags` (JS `arg in context.flags`). -/
def flagKeys (flags : List (String × StoredValue)) : List String :=
  flags.map Prod.fst

/-- JS `String(value)` on a `FlagValue`. -/
def FlagValue.toJs : FlagValue → String
  | .str s => s
  | .bool b => if b then "true" else "false"
  | .num n => toString n

/-- Function `validateChoice` from `src/utils/choice.ts`: validate a resolved flag
value against the allow-list, substituting the configured default (if any) and
warning on mismatch.  Returns the resulting value together with the warnings
it emitted. -/
def validateChoice (value : FlagValue) (choices : List FlagValue)
    (flagName : String) (defaultValue : Option FlagValue) :
    FlagValue × List Warning :=
  if choices = [] then (value, [])
  else
    let stringValue := value.toJs
    let choiceValues := choices.map FlagValue.toJs
    if stringValue ∈ choiceValues then (value, [])
    else (defaultValue.getD value, [Warning.invalidChoice flagName value choices])

/-- The argv index positions holding one of `aliases`, counting from `i`
(the `argv.forEach` scans of phase 2). -/
def occIndicesFrom (aliases : List String) (i : Nat) : List String → List Nat
  | [] => []
  | a :: rest =>
    if a ∈ aliases then i :: occIndicesFrom aliases (i + 1) rest
    else occIndicesFrom aliases (i + 1) rest

/-- The argv index positions holding one of `aliases`. -/
def occIndices (aliases : List String) (argv : List String) : List Nat :=
  occIndicesFrom aliases 0 argv

/-- Number of occurrences of a definition in argv: argv tokens equal to one
of its aliases. -/
def occurrenceCount (d : Definition) (argv : List String) : Nat :=
  (occIndices d.«alias».value argv).length

/-- Whether a definition has at least one occurrence in argv. -/
def hasOccurrence (d : Definition) (argv : List String) : Bool :=
  decide (0 < occurrenceCount d argv)

/-- Add the aliases of one definition to the known-alias set, warning on each
duplicate (`cli.ts` lines 149–156, inner loop). -/
def addAliases (acc : List String × List Warning) :
    List String → List String × List Warning
  | [] => acc
  | a :: rest =>
    if a ∈ acc.1 then addAliases (acc.1, acc.2 ++ [Warning.duplicateAlias a]) rest
    else addAliases (acc.1 ++ [a], acc.2) rest

/-- Phase 1 over all definitions. -/
def collectAliases (acc : List String × List Warning) :
    List Definition → List String × List Warning
  | [] => acc
  | d :: rest => collectAliases (addAliases acc d.«alias».value) rest

/-! ## Phase 2: parsing arguments -/

/-- The per-occurrence accumulator of the flag branch (`values`, the shared
`usedValues` set, the ghost consumption log, the shared `context.input` slot
and the warnings stream). -/
structure OccState where
  values : List FlagValue
  usedValues : List String
  consumed : List String
  input : Option FlagValue
  warnings : List Warning
deriving Repr

/-- Value resolution of one flag occurrence before choice validation
(`cli.ts` lines 215–233): returns `(hasValue, input)`. -/
def resolveOccurrence (opts : Options) (st : OccState) (nextArg : Option String) :
    Bool × FlagValue :=
  if opts.isBoolean then (false, FlagValue.bool true)
  else
    match nextArg with
    | some s =>
      if s ≠ "" ∧ startsWithDash s = false ∧ s ∉ st.usedValues then
        (true, FlagValue.str s)
      else (false, opts.defaultValue.getD (FlagValue.bool true))
    | none => (false, opts.defaultValue.getD (FlagValue.bool true))

/-- Choice validation as wired into the engine (`cli.ts` lines 235–242 and
362–369): run `validateChoice` only when a `choices` list is configured and
the resolved value is not the literal `true`. -/
def occValue (opts : Options) (primaryAlias : String) (raw : FlagValue) :
    FlagValue × List Warning :=
  match opts.choices with
  | some cs =>
    if raw ≠ FlagValue.bool true then
      validateChoice raw cs primaryAlias opts.defaultValue
    else (raw, [])
  | none => (raw, [])

/-- One iteration of the `flagIndices.forEach` loop (`cli.ts` lines 213–252):
resolve the occurrence's value, run choice validation when applicable, push
the value, and claim the consumed token. -/
def processOccurrence (opts : Options) (primaryAlias : String) (argv : List String)
    (st : OccState) (flagIndex : Nat) : OccState :=
  let nextArg := argv.get? (flagIndex + 1)
  let hv := resolveOccurrence opts st nextArg
  let validated := occValue opts primaryAlias hv.2
  if hv.1 then
    match nextArg with
    | some s =>
      { values := st.values ++ [validated.1]
        usedValues := addToSet st.usedValues s
        consumed := st.consumed ++ [s]
        input := some (FlagValue.str s)
        warnings := st.warnings ++ validated.2 }
    | none =>
      { st with
        values := st.values ++ [validated.1]
        warnings := st.warnings ++ validated.2 }
  else
    { st with
      values := st.values ++ [validated.1]
      input := if validated.1 ≠ FlagValue.bool true then some validated.1 else st.input
      warnings := st.warnings ++ validated.2 }

/-- The whole `flagIndices.forEach` loop. -/
def processOccurrences (opts : Options) (primaryAlias : String) (argv : List String)
    (st : OccState) : List Nat → OccState
  | [] => st
  | i :: rest =>
    processOccurrences opts primaryAlias argv
      (processOccurrence opts primaryAlias argv st i) rest

/-- The state threaded through phase 2 (the mutable locals of `cli`). -/
structure PState where
  context : Context
  usedValues : List String
  consumed : List String
  processedFlags : List String
  matchedAny : Bool
  warnings : List Warning

/-- The occurrence-loop state at entry of the flag branch. -/
def initOcc (st : PState) (warnRep : List Warning) : OccState :=
  { values := []
    usedValues := st.usedValues
    consumed := st.consumed
    input := st.context.input
    warnings := st.warnings ++ warnRep }

/-- The over-repetition warning of phase 2 (`cli.ts` lines 176–180 and
205–209). -/
def warnRepeated (t : DefType) (d : Definition) (occurrences : Nat) : List Warning :=
  if d.options.repeatable = false ∧ 1 < occurrences then
    [Warning.nonRepeatable t d.«alias».primary occurrences]
  else []

/-- The occurrence loop of a matched flag definition, started from the
phase-2 state. -/
def flagOcc (argv : List String) (st : PState) (d : Definition) : OccState :=
  processOccurrences d.options d.«alias».primary argv
    (initOcc st (warnRepeated DefType.flag d (occIndices d.«alias».value argv).length))
    (occIndices d.«alias».value argv)

/-- The stored value of a matched flag: the whole per-occurrence list when
repeatable, else the last occurrence's value (`cli.ts` lines 254–256). -/
def flagFinal (d : Definition) (values : List FlagValue) : StoredValue :=
  if d.options.repeatable then StoredValue.list values
  else StoredValue.single (values.getLastD (FlagValue.bool true))

/-- The value synthesized for a flag with zero occurrences (`cli.ts` lines
269–275): `defaultValue ?? false` when boolean, else `defaultValue`. -/
def flagAbsentValue (d : Definition) : Option FlagValue :=
  if d.options.isBoolean then some (d.options.defaultValue.getD (FlagValue.bool false))
  else d.options.defaultValue

/-- Processing of one definition in phase 2 (`cli.ts` lines 159–289). -/
def processDef (argv : List String) (st : PState) (d : Definition) : PState :=
  match d.type with
  | DefType.command =>
    let occurrences := (occIndices d.«alias».value argv).length
    if 0 < occurrences then
      let times := if d.options.repeatable then occurrences else 1
      { st with
        matchedAny := true
        warnings := st.warnings ++ warnRepeated DefType.command d occurrences
        context :=
          { st.context with
            commands := st.context.commands ++ List.replicate times d.«alias».primary } }
    else st
  | DefType.flag =>
    let flagIndices := occIndices d.«alias».value argv
    if 0 < flagIndices.length then
      let os := flagOcc argv st d
      { context :=
          { st.context with
            flags := setKey st.context.flags d.«alias».primary (flagFinal d os.values)
            input := os.input }
        usedValues := os.usedValues
        consumed := os.consumed
        processedFlags := addToSet st.processedFlags d.«alias».primary
        matchedAny := true
        warnings := os.warnings }
    else
      let newFlags :=
        match flagAbsentValue d with
        | some v =>
          setKey st.context.flags d.«alias».primary
            (if d.options.repeatable then StoredValue.list [v] else StoredValue.single v)
        | none => st.context.flags
      let warnReq :=
        if d.options.isRequired = true ∧ flagAbsentValue d = none then
          [Warning.missingRequired d.«alias».primary]
        else []
      { st with
        context := { st.context with flags := newFlags }
        warnings := st.warnings ++ warnReq }

/-- Phase 2 over all definitions. -/
def processDefs (argv : List String) (st : PState) : List Definition → PState
  | [] => st
  | d :: rest => processDefs argv (processDef argv st d) rest

/-- The initial phase-2 state: fresh context, phase-1 warnings already
recorded. -/
def initState (warnings : List Warning) : PState :=
  { context := {}
    usedValues := []
    consumed := []
    processedFlags := []
    matchedAny := false
    warnings := warnings }

/-- The engine state after phases 1 and 2. -/
def phase2 (definitions : List Definition) (argv : List String) : PState :=
  processDefs argv (initState (collectAliases ([], []) definitions).2) definitions

/-! ## Phase 3: run handlers for matched definitions -/

/-- The "was matched" test of phase 3 (`cli.ts` lines 296–306). -/
def wasMatched (ctx : Context) (processedFlags : List String) (d : Definition) : Bool :=
  match d.type with
  | DefType.command => decide (d.«alias».primary ∈ ctx.commands)
  | DefType.flag => decide (d.«alias».primary ∈ processedFlags)

/-- Phase 3, from definition index `i`, over caught-failure handlers: the
list of indices whose handler was invoked, and the error warnings of failed
invocations.  Here every failure is a rejected promise, which
`Promise.resolve(handler(context)).catch(...)` (`cli.ts` line 310) turns
into a warning, so every matched handler is invoked and a failure only adds
a warning.  The synchronous-throw path, which that `.catch` does NOT
intercept and which aborts the loop, is modelled by `dispatchJsFrom`. -/
def dispatchFrom (ctx : Context) (processedFlags : List String) :
    Nat → List Definition → List Nat × List Warning
  | _, [] => ([], [])
  | i, d :: rest =>
    let tail := dispatchFrom ctx processedFlags (i + 1) rest
    if wasMatched ctx processedFlags d then
      match d.handler ctx with
      | Except.ok _ => (i :: tail.1, tail.2)
      | Except.error msg =>
        (i :: tail.1, Warning.handlerError false d.type d.«alias».primary msg :: tail.2)
    else tail

/-! ## Phase 4: default behaviour -/

/-- First definition (with its declaration index, counting from `i`) marked
`default: true` (`defaultDefinitions[0]`). -/
def firstDefaultFrom (i : Nat) : List Definition → Option (Nat × Definition)
  | [] => none
  | d :: rest =>
    if d.options.default then some (i, d) else firstDefaultFrom (i + 1) rest

/-- Number of definitions marked `default: true`. -/
def countDefaults (definitions : List Definition) : Nat :=
  (definitions.filter (fun d => d.options.default)).length

/-- The state after phase 4. -/
structure DState where
  context : Context
  usedValues : List String
  consumed : List String
  processedFlags : List String
  warnings : List Warning
  defaultFired : Option Nat

/-- Phase 4's update for a given selected default definition (the body of
`cli.ts` lines 330–388), over the components of the engine state, with the
default handler's failure modelled as a rejected promise (caught at line
382 and turned into a warning).  The synchronous-throw path, which escapes
that `.catch` and rejects the call before phase 5, is modelled by
`runDefaultJsWith`. -/
def runDefaultWith (argv : List String) (ctx : Context)
    (usedValues consumed processedFlags : List String) (warnings : List Warning)
    (warnMulti : List Warning) (sel : Option (Nat × Definition)) : DState :=
  match sel with
  | none =>
    { context := ctx
      usedValues := usedValues
      consumed := consumed
      processedFlags := processedFlags
      warnings := warnings ++ warnMulti
      defaultFired := none }
  | some (i, d) =>
    let primaryAlias := d.«alias».primary
    match d.type with
    | DefType.command =>
      let consumeLead :=
        match argv with
        | a0 :: _ => if a0 ∉ usedValues ∧ startsWithDash a0 = false then some a0 else none
        | [] => none
      let ctx1 :=
        match consumeLead with
        | some a0 =>
          { ctx with
            commands := ctx.commands ++ [primaryAlias]
            input := some (FlagValue.str a0) }
        | none =>
          { ctx with commands := ctx.commands ++ [primaryAlias] }
      let used1 :=
        match consumeLead with
        | some a0 => addToSet usedValues a0
        | none => usedValues
      let consumed1 :=
        match consumeLead with
        | some a0 => consumed ++ [a0]
        | none => consumed
      let handlerWarn :=
        match d.handler ctx1 with
        | Except.ok _ => []
        | Except.error msg => [Warning.handlerError true DefType.command primaryAlias msg]
      { context := ctx1
        usedValues := used1
        consumed := consumed1
        processedFlags := processedFlags
        warnings := warnings ++ warnMulti ++ handlerWarn
        defaultFired := some i }
    | DefType.flag =>
      let consumeLead :=
        match argv with
        | a0 :: _ => if a0 ∉ usedValues ∧ startsWithDash a0 = false then some a0 else none
        | [] => none
      let input0 :=
        match consumeLead with
        | some a0 => FlagValue.str a0
        | none => d.options.defaultValue.getD (FlagValue.bool true)
      let used1 :=
        match consumeLead with
        | some a0 => addToSet usedValues a0
        | none => usedValues
      let consumed1 :=
        match consumeLead with
        | some a0 => consumed ++ [a0]
        | none => consumed
      let inputSlot :=
        match consumeLead with
        | some a0 => some (FlagValue.str a0)
        | none => ctx.input
      let validated := occValue d.options primaryAlias input0
      let ctx1 :=
        { ctx with
          input := inputSlot
          flags :=
            setKey ctx.flags primaryAlias
              (if d.options.repeatable then StoredValue.list [validated.1]
               else StoredValue.single validated.1) }
      let handlerWarn :=
        match d.handler ctx1 with
        | Except.ok _ => []
        | Except.error msg => [Warning.handlerError true DefType.flag primaryAlias msg]
      { context := ctx1
        usedValues := used1
        consumed := consumed1
        processedFlags := addToSet processedFlags primaryAlias
        warnings := warnings ++ warnMulti ++ validated.2 ++ handlerWarn
        defaultFired := some i }

/-- The multiple-defaults warning of phase 4 (`cli.ts` lines 324–328). -/
def multiWarn (definitions : List Definition) : List Warning :=
  if 1 < countDefaults definitions then
    match firstDefaultFrom 0 definitions with
    | some p => [Warning.multipleDefaults p.2.«alias».primary]
    | none => []
  else []

/-- Phase 4 (`cli.ts` lines 320–388), run only when nothing matched: select
the first `default: true` definition (warning when several exist), update the
context, and invoke its handler with error isolation. -/
def runDefault (definitions : List Definition) (argv : List String) (st : PState) : DState :=
  runDefaultWith argv st.context st.usedValues st.consumed st.processedFlags st.warnings
    (multiWarn definitions) (firstDefaultFrom 0 definitions)

/-! ## Phase 5 and the whole call -/

/-- Phase 5 (`cli.ts` lines 391–398): the tokens reported as unknown. -/
def unknownArguments (argv knownAliases usedValues : List String)
    (ctx : Context) (processedFlags : List String) : List String :=
  argv.filter (fun arg =>
    decide (arg ∉ knownAliases ∧ arg ∉ usedValues ∧ arg ∉ ctx.commands ∧
      arg ∉ processedFlags ∧ arg ∉ flagKeys ctx.flags))

/-- The full observable outcome of one `cli(definitions...)(argv)` call:
the returned context plus the effects (warnings, fired handlers, consumed
tokens) that the source performs through `warn` and handler invocation. -/
structure CliResult where
  context : Context
  warnings : List Warning
  fired : List Nat
  defaultFired : Option Nat
  usedValues : List String
  consumed : List String
  processedFlags : List String
  knownAliases : List String
  matchedAny : Bool
  unknownArgs : List String
deriving Repr

/-- Phases 1–4 of a `cli` call. -/
def cliPhases14 (definitions : List Definition) (argv : List String) : CliResult :=
  let ka := (collectAliases ([], []) definitions).1
  let st := phase2 definitions argv
  let disp := dispatchFrom st.context st.processedFlags 0 definitions
  let st1 : PState := { st with warnings := st.warnings ++ disp.2 }
  if st.matchedAny then
    { context := st1.context
      warnings := st1.warnings
      fired := disp.1
      defaultFired := none
      usedValues := st1.usedValues
      consumed := st1.consumed
      processedFlags := st1.processedFlags
      knownAliases := ka
      matchedAny := st.matchedAny
      unknownArgs := [] }
  else
    let ds := runDefault definitions argv st1
    { context := ds.context
      warnings := ds.warnings
      fired := disp.1
      defaultFired := ds.defaultFired
      usedValues := ds.usedValues
      consumed := ds.consumed
      processedFlags := ds.processedFlags
      knownAliases := ka
      matchedAny := st.matchedAny
      unknownArgs := [] }

/-- The whole `cli(definitions...)(argv)` call (phases 1–5). -/
def cli (definitions : List Definition) (argv : List String) : CliResult :=
  let r := cliPhases14 definitions argv
  let unknown := unknownArguments argv r.knownAliases r.usedValues r.context r.processedFlags
  { r with
    unknownArgs := unknown
    warnings :=
      r.warnings ++ (if unknown = [] then [] else [Warning.unknownArgs unknown]) }

/-! ## The call over three-outcome handlers

The definitions below repeat phases 3–5 over `DefinitionJs`, adding the one
behaviour `Definition` cannot express: a handler that throws synchronously
raises its exception while `handler(context)` is evaluated, before
`Promise.resolve(...).catch` attaches (`cli.ts` lines 310 and 382), so the
exception escapes — the remaining matched handlers are never initiated, no
handler-error warning is recorded for it, phases 4–5 are skipped, and the
call's promise rejects instead of resolving to a Context.  Phases 1–2 never
invoke handlers and are reused verbatim through `DefinitionJs.toCaught`. -/

/-- The "was matched" test of phase 3 over three-outcome definitions (same
code as `wasMatched`: it reads only the tag and the primary alias). -/
def wasMatchedJs (ctx : Context) (processedFlags : List String) (d : DefinitionJs) : Bool :=
  match d.type with
  | DefType.command => decide (d.«alias».primary ∈ ctx.commands)
  | DefType.flag => decide (d.«alias».primary ∈ processedFlags)

/-- Phase 3 over three-outcome handlers: the fired indices, the warnings of
caught (rejected-promise) failures, and `some msg` when a synchronous throw
escaped — in which case the loop stops and no warning records the throw.
Rejection warnings of handlers initiated before the throw are still emitted
(their `.catch` callbacks are already attached). -/
def dispatchJsFrom (ctx : Context) (processedFlags : List String) :
    Nat → List DefinitionJs → List Nat × List Warning × Option String
  | _, [] => ([], [], none)
  | i, d :: rest =>
    if wasMatchedJs ctx processedFlags d then
      match d.handler ctx with
      | HandlerResult.thrown msg => ([i], [], some msg)
      | HandlerResult.ok =>
        let tail := dispatchJsFrom ctx processedFlags (i + 1) rest
        (i :: tail.1, tail.2.1, tail.2.2)
      | HandlerResult.rejected msg =>
        let tail := dispatchJsFrom ctx processedFlags (i + 1) rest
        (i :: tail.1,
          Warning.handlerError false d.type d.«alias».primary msg :: tail.2.1,
          tail.2.2)
    else dispatchJsFrom ctx processedFlags (i + 1) rest

/-- First three-outcome definition (with its declaration index) marked
`default: true`. -/
def firstDefaultJsFrom (i : Nat) : List DefinitionJs → Option (Nat × DefinitionJs)
  | [] => none
  | d :: rest =>
    if d.options.default then some (i, d) else firstDefaultJsFrom (i + 1) rest

/-- Phase 4 over a three-outcome selected default definition: identical
context update to `runDefaultWith`, but the handler invocation distinguishes
a rejected promise (caught at `cli.ts` line 382, warning emitted, call
continues) from a synchronous throw (escapes, `some msg`, phase 5 will be
skipped and the call rejects). -/
def runDefaultJsWith (argv : List String) (ctx : Context)
    (usedValues consumed processedFlags : List String) (warnings : List Warning)
    (warnMulti : List Warning) (sel : Option (Nat × DefinitionJs)) :
    DState × Option String :=
  match sel with
  | none =>
    ({ context := ctx
       usedValues := usedValues
       consumed := consumed
       processedFlags := processedFlags
       warnings := warnings ++ warnMulti
       defaultFired := none }, none)
  | some (i, d) =>
    let primaryAlias := d.«alias».primary
    match d.type with
    | DefType.command =>
      let consumeLead :=
        match argv with
        | a0 :: _ => if a0 ∉ usedValues ∧ startsWithDash a0 = false then some a0 else none
        | [] => none
      let ctx1 :=
        match consumeLead with
        | some a0 =>
          { ctx with
            commands := ctx.commands ++ [primaryAlias]
            input := some (FlagValue.str a0) }
        | none =>
          { ctx with commands := ctx.commands ++ [primaryAlias] }
      let used1 :=
        match consumeLead with
        | some a0 => addToSet usedValues a0
        | none => usedValues
      let consumed1 :=
        match consumeLead with
        | some a0 => consumed ++ [a0]
        | none => consumed
      let hw : List Warning × Option String :=
        match d.handler ctx1 with
        | HandlerResult.ok => ([], none)
        | HandlerResult.rejected msg =>
          ([Warning.handlerError true DefType.command primaryAlias msg], none)
        | HandlerResult.thrown msg => ([], some msg)
      ({ context := ctx1
         usedValues := used1
         consumed := consumed1
         processedFlags := processedFlags
         warnings := warnings ++ warnMulti ++ hw.1
         defaultFired := some i }, hw.2)
    | DefType.flag =>
      let consumeLead :=
        match argv with
        | a0 :: _ => if a0 ∉ usedValues ∧ startsWithDash a0 = false then some a0 else none
        | [] => none
      let input0 :=
        match consumeLead with
        | some a0 => FlagValue.str a0
        | none => d.options.defaultValue.getD (FlagValue.bool true)
      let used1 :=
        match consumeLead with
        | some a0 => addToSet usedValues a0
        | none => usedValues
      let consumed1 :=
        match consumeLead with
        | some a0 => consumed ++ [a0]
        | none => consumed
      let inputSlot :=
        match consumeLead with
        | some a0 => some (FlagValue.str a0)
        | none => ctx.input
      let validated := occValue d.options primaryAlias input0
      let ctx1 :=
        { ctx with
          input := inputSlot
          flags :=
            setKey ctx.flags primaryAlias
              (if d.options.repeatable then StoredValue.list [validated.1]
               else StoredValue.single validated.1) }
      let hw : List Warning × Option String :=
        match d.handler ctx1 with
        | HandlerResult.ok => ([], none)
        | HandlerResult.rejected msg =>
          ([Warning.handlerError true DefType.flag primaryAlias msg], none)
        | HandlerResult.thrown msg => ([], some msg)
      ({ context := ctx1
         usedValues := used1
         consumed := consumed1
         processedFlags := addToSet processedFlags primaryAlias
         warnings := warnings ++ warnMulti ++ validated.2 ++ hw.1
         defaultFired := some i }, hw.2)

/-- The whole `cli(definitions...)(argv)` call over three-outcome handlers:
the observable outcome reached, paired with `some msg` when the call's
promise rejects with an escaped synchronous throw (in which case the
remaining phases never ran — in particular `unknownArgs` stays empty because
phase 5 was skipped) and `none` when the call resolves to its Context. -/
def cliJs (definitions : List DefinitionJs) (argv : List String) :
    CliResult × Option String :=
  let caught := definitions.map DefinitionJs.toCaught
  let ka := (collectAliases ([], []) caught).1
  let st := phase2 caught argv
  let disp := dispatchJsFrom st.context st.processedFlags 0 definitions
  let base : CliResult :=
    { context := st.context
      warnings := st.warnings ++ disp.2.1
      fired := disp.1
      defaultFired := none
      usedValues := st.usedValues
      consumed := st.consumed
      processedFlags := st.processedFlags
      knownAliases := ka
      matchedAny := st.matchedAny
      unknownArgs := [] }
  match disp.2.2 with
  | some msg => (base, some msg)
  | none =>
    if st.matchedAny then
      let unknown := unknownArguments argv ka st.usedValues st.context st.processedFlags
      ({ base with
          unknownArgs := unknown
          warnings :=
            base.warnings ++
              (if unknown = [] then [] else [Warning.unknownArgs unknown]) }, none)
    else
      let ds := runDefaultJsWith argv st.context st.usedValues st.consumed
        st.processedFlags (st.warnings ++ disp.2.1) (multiWarn caught)
        (firstDefaultJsFrom 0 definitions)
      match ds.2 with
      | some msg =>
        ({ context := ds.1.context
           warnings := ds.1.warnings
           fired := disp.1
           defaultFired := ds.1.defaultFired
           usedValues := ds.1.usedValues
           consumed := ds.1.consumed
           processedFlags := ds.1.processedFlags
           knownAliases := ka
           matchedAny := st.matchedAny
           unknownArgs := [] }, some msg)
      | none =>
        let unknown := unknownArguments argv ka ds.1.usedValues ds.1.context
          ds.1.processedFlags
        ({ context := ds.1.context
           warnings :=
             ds.1.warnings ++
               (if unknown = [] then [] else [Warning.unknownArgs unknown])
           fired := disp.1
           defaultFired := ds.1.defaultFired
           usedValues := ds.1.usedValues
           consumed := ds.1.consumed
           processedFlags := ds.1.processedFlags
           knownAliases := ka
           matchedAny := st.matchedAny
           unknownArgs := unknown }, none)

/-! ## Specification-side reference definitions

These follow the spec's / claims' wording (not the source) and are used only
to compare the engine against the claims. -/

/-- A handler that always succeeds. -/
def okHandler : Context → Except String Unit := fun _ => Except.ok ()

/-- A handler that always throws (message "boom"). -/
def errHandler : Context → Except String Unit := fun _ => Except.error "boom"

/-- Definition `flag(["-e"], h)` with a throwing handler. -/
def exFlagErr : Definition := { type := DefType.flag, «alias» := ⟨"-e", []⟩, handler := errHandler }

/-- Definition `command(["a"], h, {default:true})`. -/
def exDefaultA : Definition :=
  { type := DefType.command, «alias» := ⟨"a", []⟩, handler := okHandler,
    options := { default := true } }

/-- Definition `command(["b"], h, {default:true})`. -/
def exDefaultB : Definition :=
  { type := DefType.command, «alias» := ⟨"b", []⟩, handler := okHandler,
    options := { default := true } }

/-- Definition `flag(["-a"], h)`. -/
def exFlagA : Definition := { type := DefType.flag, «alias» := ⟨"-a", []⟩, handler := okHandler }

/-- Definition `flag(["-b"], h)`. -/
def exFlagB : Definition := { type := DefType.flag, «alias» := ⟨"-b", []⟩, handler := okHandler }

/-- Definition `flag(["--tag"], h, {repeatable:true})`. -/
def exFlagTag : Definition :=
  { type := DefType.flag, «alias» := ⟨"--tag", []⟩, handler := okHandler,
    options := { repeatable := true } }

/-- Definition `flag(["--quiet"], h, {isBoolean:true})`. -/
def exFlagBool : Definition :=
  { type := DefType.flag, «alias» := ⟨"--quiet", []⟩, handler := okHandler,
    options := { isBoolean := true } }

/-- Definition `flag(["-x","--long"], h)`: its primary alias `-x` is shared with
`exFlagXShort`. -/
def exFlagXLong : Definition :=
  { type := DefType.flag, «alias» := ⟨"-x", ["--long"]⟩, handler := okHandler }

/-- Definition `flag(["-x"], h)`. -/
def exFlagXShort : Definition :=
  { type := DefType.flag, «alias» := ⟨"-x", []⟩, handler := okHandler }

/-- Definition `flag(["--name"], h, {defaultValue:"Guest"})`. -/
def exFlagName : Definition :=
  { type := DefType.flag, «alias» := ⟨"--name", []⟩, handler := okHandler,
    options := { defaultValue := some (FlagValue.str "Guest") } }

/-- Definition `flag(["--port"], h, {choices:["3000","4000"], defaultValue:"3000"})`. -/
def exFlagPort : Definition :=
  { type := DefType.flag, «alias» := ⟨"--port", []⟩, handler := okHandler,
    options := { choices := some [FlagValue.str "3000", FlagValue.str "4000"],
                 defaultValue := some (FlagValue.str "3000") } }

/-- An occurrence-loop state in which the token "x" has already been claimed
as a value. -/
def exOccUsed : OccState :=
  { values := [], usedValues := ["x"], consumed := ["x"], input := none, warnings := [] }

/-- Three-outcome definition `flag(["-t"], h, {isBoolean:true})` whose
handler throws synchronously ("boom"). -/
def exFlagThrow : DefinitionJs :=
  { type := DefType.flag, «alias» := ⟨"-t", []⟩,
    handler := fun _ => HandlerResult.thrown "boom",
    options := { isBoolean := true } }

/-- Three-outcome definition `flag(["-o"], h, {isBoolean:true})` whose
handler succeeds. -/
def exFlagOkJs : DefinitionJs :=
  { type := DefType.flag, «alias» := ⟨"-o", []⟩,
    handler := fun _ => HandlerResult.ok,
    options := { isBoolean := true } }

/-- Three-outcome definition `flag(["-r"], h, {isBoolean:true})` whose
handler returns a rejected promise ("boom"). -/
def exFlagRejectJs : DefinitionJs :=
  { type := DefType.flag, «alias» := ⟨"-r", []⟩,
    handler := fun _ => HandlerResult.rejected "boom",
    options := { isBoolean := true } }

/-! ## Classifiers and invariants used in the statements -/

/-- Whether a warning is the multiple-defaults warning. -/
def Warning.isMultiDefault : Warning → Bool
  | .multipleDefaults _ => true
  | _ => false

/-- Whether a warning is the unknown-arguments warning. -/
def Warning.isUnknownWarning : Warning → Bool
  | .unknownArgs _ => true
  | _ => false

/-- Whether a warning is an invalid-choice warning. -/
def Warning.isChoiceWarning : Warning → Bool
  | .invalidChoice _ _ _ => true
  | _ => false

/-- Whether a warning can be emitted by phases 1–2 (alias collection and
parsing): duplicate-alias, over-repetition, invalid-choice or
missing-required. -/
def Warning.fromParsing : Warning → Bool
  | .duplicateAlias _ => true
  | .nonRepeatable _ _ _ => true
  | .invalidChoice _ _ _ => true
  | .missingRequired _ => true
  | _ => false

/-- The consumption-log invariant: the `usedValues` set is exactly the list
of consumption events, and no token was ever consumed twice. -/
def OccInv (st : OccState) : Prop :=
  st.usedValues = st.consumed ∧ st.consumed.Nodup

/-- Same invariant on the phase-2 state. -/
def PInv (st : PState) : Prop :=
  st.usedValues = st.consumed ∧ st.consumed.Nodup

theorem addToSet_of_not_mem {s : List String} {x : String} (h : x ∉ s) :
    addToSet s x = s ++ [x] := by
  unfold addToSet
  rw [if_neg h]

theorem lookupFlag_setKey (l : List (String × StoredValue)) (k : String) (v : StoredValue) :
    lookupFlag (setKey l k v) k = some v := by
  induction l with
  | nil => simp [setKey, lookupFlag]
  | cons p rest ih =>
    obtain ⟨k0, v0⟩ := p
    by_cases h : k0 = k
    · simp [setKey, lookupFlag, h]
    · simp [setKey, lookupFlag, h, ih]

theorem getLastD_replicate (n : Nat) (x : FlagValue) :
    (List.replicate n x).getLastD x = x := by
  induction n with
  | zero => rfl
  | succ n ih => rw [List.replicate_succ, List.getLastD_cons, ih]

/-! ## Lemmas: choice validation -/

theorem validateChoice_miss (value : FlagValue) (choices : List FlagValue)
    (flagName : String) (dv : Option FlagValue) (hne : choices ≠ [])
    (hmiss : value.toJs ∉ choices.map FlagValue.toJs) :
    validateChoice value choices flagName dv =
      (dv.getD value, [Warning.invalidChoice flagName value choices]) := by
  simp [validateChoice, hne, hmiss]

theorem validateChoice_fst_self (v : FlagValue) (cs : List FlagValue) (p : String) :
    (validateChoice v cs p (some v)).1 = v := by
  by_cases h1 : cs = []
  · simp [validateChoice, h1]
  · by_cases h2 : v.toJs ∈ cs.map FlagValue.toJs
    · simp [validateChoice, h1, h2]
    · simp [validateChoice, h1, h2]

theorem validateChoice_snd (v : FlagValue) (cs : List FlagValue) (p : String)
    (dv : Option FlagValue) :
    (validateChoice v cs p dv).2 = [] ∨
      (validateChoice v cs p dv).2 = [Warning.invalidChoice p v cs] := by
  by_cases h1 : cs = []
  · left; simp [validateChoice, h1]
  · by_cases h2 : v.toJs ∈ cs.map FlagValue.toJs
    · left; simp [validateChoice, h1, h2]
    · right; simp [validateChoice, h1, h2]

theorem occValue_bool_true (opts : Options) (p : String) :
    occValue opts p (FlagValue.bool true) = (FlagValue.bool true, []) := by
  unfold occValue
  cases opts.choices with
  | none => rfl
  | some cs => simp

theorem occValue_fst_fallback (opts : Options) (p : String) :
    (occValue opts p (opts.defaultValue.getD (FlagValue.bool true))).1 =
      opts.defaultValue.getD (FlagValue.bool true) := by
  cases hd : opts.defaultValue with
  | none => simp [occValue_bool_true]
  | some v =>
    simp only [Option.getD_some]
    unfold occValue
    cases opts.choices with
    | none => rfl
    | some cs =>
      by_cases hv : v = FlagValue.bool true
      · simp [hv]
      · rw [hd]
        simp only [ne_eq, hv, not_false_iff, if_pos]
        exact validateChoice_fst_self v cs p

theorem occValue_snd (opts : Options) (p : String) (raw : FlagValue) :
    (occValue opts p raw).2 = [] ∨
      ∃ cs, (occValue opts p raw).2 = [Warning.invalidChoice p raw cs] := by
  unfold occValue
  cases opts.choices with
  | none => left; rfl
  | some cs =>
    by_cases hv : raw = FlagValue.bool true
    · left; simp [hv]
    · simp only [ne_eq, hv, not_false_iff, if_pos]
      rcases validateChoice_snd raw cs p opts.defaultValue with h | h
      · left; exact h
      · right; exact ⟨cs, h⟩

/-! ## Lemmas: one occurrence -/

theorem resolveOccurrence_isBoolean (opts : Options) (st : OccState)
    (nextArg : Option String) (h : opts.isBoolean = true) :
    resolveOccurrence opts st nextArg = (false, FlagValue.bool true) := by
  simp [resolveOccurrence, h]

theorem resolveOccurrence_none (opts : Options) (st : OccState)
    (hb : opts.isBoolean = false) :
    resolveOccurrence opts st none = (false, opts.defaultValue.getD (FlagValue.bool true)) := by
  simp [resolveOccurrence, hb]

theorem resolveOccurrence_used (opts : Options) (st : OccState) (s : String)
    (hb : opts.isBoolean = false) (hs : s ∈ st.usedValues) :
    resolveOccurrence opts st (some s) =
      (false, opts.defaultValue.getD (FlagValue.bool true)) := by
  simp [resolveOccurrence, hb, hs]

theorem resolveOccurrence_consume (opts : Options) (st : OccState) (s : String)
    (hb : opts.isBoolean = false) (h1 : s ≠ "") (h2 : startsWithDash s = false)
    (h3 : s ∉ st.usedValues) :
    resolveOccurrence opts st (some s) = (true, FlagValue.str s) := by
  simp [resolveOccurrence, hb, h1, h2, h3]

theorem processOccurrence_isBoolean (opts : Options) (p : String) (argv : List String)
    (st : OccState) (i : Nat) (h : opts.isBoolean = true) :
    processOccurrence opts p argv st i =
      { st with values := st.values ++ [FlagValue.bool true] } := by
  simp only [processOccurrence]
  rw [resolveOccurrence_isBoolean opts st _ h]
  simp [occValue_bool_true]

theorem processOccurrence_noConsume (opts : Options) (p : String) (argv : List String)
    (st : OccState) (i : Nat) (hb : opts.isBoolean = false)
    (hres : (resolveOccurrence opts st (argv.get? (i + 1))).1 = false) :
    processOccurrence opts p argv st i =
      { st with
        values :=
          st.values ++ [(occValue opts p (opts.defaultValue.getD (FlagValue.bool true))).1]
        input :=
          if (occValue opts p (opts.defaultValue.getD (FlagValue.bool true))).1 ≠
              FlagValue.bool true
          then some (occValue opts p (opts.defaultValue.getD (FlagValue.bool true))).1
          else st.input
        warnings :=
          st.warnings ++
            (occValue opts p (opts.defaultValue.getD (FlagValue.bool true))).2 } := by
  have hsnd : (resolveOccurrence opts st (argv.get? (i + 1))).2 =
      opts.defaultValue.getD (FlagValue.bool true) := by
    cases hn : argv.get? (i + 1) with
    | none => rw [resolveOccurrence_none opts st hb]
    | some s =>
      rw [hn] at hres
      unfold resolveOccurrence at hres ⊢
      rw [hb] at hres ⊢
      simp only [Bool.false_eq_true, if_false] at hres ⊢
      split at hres
      · simp at hres
      · next hcond =>
        rw [if_neg hcond]
  simp only [processOccurrence]
  rw [hsnd, hres]
  simp

theorem processOccurrence_consume (opts : Options) (p : String) (argv : List String)
    (st : OccState) (i : Nat) (s : String) (hb : opts.isBoolean = false)
    (hnext : argv.get? (i + 1) = some s) (h1 : s ≠ "")
    (h2 : startsWithDash s = false) (h3 : s ∉ st.usedValues) :
    processOccurrence opts p argv st i =
      { values := st.values ++ [(occValue opts p (FlagValue.str s)).1]
        usedValues := st.usedValues ++ [s]
        consumed := st.consumed ++ [s]
        input := some (FlagValue.str s)
        warnings := st.warnings ++ (occValue opts p (FlagValue.str s)).2 } := by
  simp only [processOccurrence]
  rw [hnext, resolveOccurrence_consume opts st s hb h1 h2 h3]
  simp [addToSet_of_not_mem h3]

theorem resolveOccurrence_not_consume (opts : Options) (st : OccState) (s : String)
    (hb : opts.isBoolean = false)
    (h : ¬(s ≠ "" ∧ startsWithDash s = false ∧ s ∉ st.usedValues)) :
    resolveOccurrence opts st (some s) =
      (false, opts.defaultValue.getD (FlagValue.bool true)) := by
  simp only [resolveOccurrence, hb, Bool.false_eq_true, if_false]
  rw [if_neg h]

theorem processOccurrence_split (opts : Options) (p : String) (argv : List String)
    (st : OccState) (i : Nat) :
    (∃ s, argv.get? (i + 1) = some s ∧ s ∉ st.usedValues ∧
        processOccurrence opts p argv st i =
          { values := st.values ++ [(occValue opts p (FlagValue.str s)).1]
            usedValues := st.usedValues ++ [s]
            consumed := st.consumed ++ [s]
            input := some (FlagValue.str s)
            warnings := st.warnings ++ (occValue opts p (FlagValue.str s)).2 }) ∨
    (∃ x W inp, processOccurrence opts p argv st i =
        { values := st.values ++ [x]
          usedValues := st.usedValues
          consumed := st.consumed
          input := inp
          warnings := st.warnings ++ W }) := by
  cases hb : opts.isBoolean with
  | true =>
    right
    refine ⟨FlagValue.bool true, [], st.input, ?_⟩
    rw [processOccurrence_isBoolean opts p argv st i hb]
    simp
  | false =>
    cases hn : argv.get? (i + 1) with
    | none =>
      right
      have hres : (resolveOccurrence opts st (argv.get? (i + 1))).1 = false := by
        rw [hn, resolveOccurrence_none opts st hb]
      exact ⟨_, _, _, processOccurrence_noConsume opts p argv st i hb hres⟩
    | some s =>
      by_cases hc : s ≠ "" ∧ startsWithDash s = false ∧ s ∉ st.usedValues
      · left
        exact ⟨s, rfl, hc.2.2,
          processOccurrence_consume opts p argv st i s hb hn hc.1 hc.2.1 hc.2.2⟩
      · right
        have hres : (resolveOccurrence opts st (argv.get? (i + 1))).1 = false := by
          rw [hn, resolveOccurrence_not_consume opts st s hb hc]
        exact ⟨_, _, _, processOccurrence_noConsume opts p argv st i hb hres⟩

theorem processOccurrence_values_length (opts : Options) (p : String) (argv : List String)
    (st : OccState) (i : Nat) :
    (processOccurrence opts p argv st i).values.length = st.values.length + 1 := by
  rcases processOccurrence_split opts p argv st i with ⟨s, _, _, h⟩ | ⟨x, W, inp, h⟩ <;>
    rw [h] <;> simp

theorem processOccurrence_used_mono (opts : Options) (p : String) (argv : List String)
    (st : OccState) (i : Nat) {x : String} (hx : x ∈ st.usedValues) :
    x ∈ (processOccurrence opts p argv st i).usedValues := by
  rcases processOccurrence_split opts p argv st i with ⟨s, _, _, h⟩ | ⟨y, W, inp, h⟩ <;>
    rw [h] <;> simp [hx]

theorem processOccurrence_inv (opts : Options) (p : String) (argv : List String)
    (st : OccState) (i : Nat) (h : OccInv st) :
    OccInv (processOccurrence opts p argv st i) := by
  obtain ⟨he, hn⟩ := h
  rcases processOccurrence_split opts p argv st i with ⟨s, _, hs, hrec⟩ | ⟨x, W, inp, hrec⟩
  · rw [hrec]
    refine ⟨by simp [he], ?_⟩
    have hs' : s ∉ st.consumed := he ▸ hs
    simp [List.nodup_append, hn, hs']
  · rw [hrec]
    exact ⟨he, hn⟩

theorem processOccurrence_consumed_change (opts : Options) (p : String)
    (argv : List String) (st : OccState) (i : Nat)
    (h : (processOccurrence opts p argv st i).consumed ≠ st.consumed) :
    ∃ s, argv.get? (i + 1) = some s ∧ s ∉ st.usedValues ∧
      (processOccurrence opts p argv st i).consumed = st.consumed ++ [s] ∧
      (processOccurrence opts p argv st i).usedValues = st.usedValues ++ [s] := by
  rcases processOccurrence_split opts p argv st i with ⟨s, h1, h2, hrec⟩ | ⟨x, W, inp, hrec⟩
  · exact ⟨s, h1, h2, by rw [hrec], by rw [hrec]⟩
  · exact absurd (by rw [hrec]) h

theorem processOccurrence_already_used (opts : Options) (p : String) (argv : List String)
    (st : OccState) (i : Nat) (s : String) (hb : opts.isBoolean = false)
    (hnext : argv.get? (i + 1) = some s) (hs : s ∈ st.usedValues) :
    (processOccurrence opts p argv st i).values =
      st.values ++ [opts.defaultValue.getD (FlagValue.bool true)] ∧
    (processOccurrence opts p argv st i).usedValues = st.usedValues ∧
    (processOccurrence opts p argv st i).consumed = st.consumed := by
  have hres : (resolveOccurrence opts st (argv.get? (i + 1))).1 = false := by
    rw [hnext, resolveOccurrence_used opts st s hb hs]
  rw [processOccurrence_noConsume opts p argv st i hb hres]
  refine ⟨?_, rfl, rfl⟩
  rw [occValue_fst_fallback]

theorem occValue_snd_choice (opts : Options) (p : String) (raw : FlagValue) :
    ∀ w ∈ (occValue opts p raw).2, w.isChoiceWarning = true := by
  rcases occValue_snd opts p raw with h | ⟨cs, h⟩ <;> rw [h]
  · intro w hw
    simp at hw
  · intro w hw
    simp at hw
    rw [hw]
    rfl

theorem processOccurrence_warnings (opts : Options) (p : String) (argv : List String)
    (st : OccState) (i : Nat) :
    ∃ raw, (processOccurrence opts p argv st i).warnings =
      st.warnings ++ (occValue opts p raw).2 := by
  cases hb : opts.isBoolean with
  | true =>
    refine ⟨FlagValue.bool true, ?_⟩
    rw [processOccurrence_isBoolean opts p argv st i hb]
    simp [occValue_bool_true]
  | false =>
    cases hn : argv.get? (i + 1) with
    | none =>
      have hres : (resolveOccurrence opts st (argv.get? (i + 1))).1 = false := by
        rw [hn, resolveOccurrence_none opts st hb]
      exact ⟨_, by rw [processOccurrence_noConsume opts p argv st i hb hres]⟩
    | some s =>
      by_cases hc : s ≠ "" ∧ startsWithDash s = false ∧ s ∉ st.usedValues
      · exact ⟨FlagValue.str s,
          by rw [processOccurrence_consume opts p argv st i s hb hn hc.1 hc.2.1 hc.2.2]⟩
      · have hres : (resolveOccurrence opts st (argv.get? (i + 1))).1 = false := by
          rw [hn, resolveOccurrence_not_consume opts st s hb hc]
        exact ⟨_, by rw [processOccurrence_noConsume opts p argv st i hb hres]⟩

/-! ## Lemmas: the whole occurrence loop -/

theorem processOccurrences_values_length (opts : Options) (p : String) (argv : List String) :
    ∀ (l : List Nat) (st : OccState),
      (processOccurrences opts p argv st l).values.length = st.values.length + l.length := by
  intro l
  induction l with
  | nil => intro st; simp [processOccurrences]
  | cons i rest ih =>
    intro st
    rw [processOccurrences, ih, processOccurrence_values_length]
    simp
    omega

theorem processOccurrences_used_mono (opts : Options) (p : String) (argv : List String)
    {x : String} :
    ∀ (l : List Nat) (st : OccState), x ∈ st.usedValues →
      x ∈ (processOccurrences opts p argv st l).usedValues := by
  intro l
  induction l with
  | nil => intro st hx; exact hx
  | cons i rest ih =>
    intro st hx
    rw [processOccurrences]
    exact ih _ (processOccurrence_used_mono opts p argv st i hx)

theorem processOccurrences_inv (opts : Options) (p : String) (argv : List String) :
    ∀ (l : List Nat) (st : OccState), OccInv st →
      OccInv (processOccurrences opts p argv st l) := by
  intro l
  induction l with
  | nil => intro st hx; exact hx
  | cons i rest ih =>
    intro st hx
    rw [processOccurrences]
    exact ih _ (processOccurrence_inv opts p argv st i hx)

theorem processOccurrences_warnings (opts : Options) (p : String) (argv : List String) :
    ∀ (l : List Nat) (st : OccState),
      ∃ W, (processOccurrences opts p argv st l).warnings = st.warnings ++ W ∧
        ∀ w ∈ W, w.isChoiceWarning = true := by
  intro l
  induction l with
  | nil =>
    intro st
    exact ⟨[], by simp [processOccurrences], by intro w hw; simp at hw⟩
  | cons i rest ih =>
    intro st
    rw [processOccurrences]
    obtain ⟨W, hW, hWP⟩ := ih (processOccurrence opts p argv st i)
    obtain ⟨raw, hraw⟩ := processOccurrence_warnings opts p argv st i
    refine ⟨(occValue opts p raw).2 ++ W, ?_, ?_⟩
    · rw [hW, hraw, List.append_assoc]
    · intro w hw
      rcases List.mem_append.1 hw with h | h
      · exact occValue_snd_choice opts p raw w h
      · exact hWP w h

theorem processOccurrences_isBoolean (opts : Options) (p : String) (argv : List String)
    (hb : opts.isBoolean = true) :
    ∀ (l : List Nat) (st : OccState),
      processOccurrences opts p argv st l =
        { st with values := st.values ++ List.replicate l.length (FlagValue.bool true) } := by
  intro l
  induction l with
  | nil => intro st; simp [processOccurrences]
  | cons i rest ih =>
    intro st
    rw [processOccurrences, processOccurrence_isBoolean opts p argv st i hb, ih]
    simp [List.replicate_succ]

/-! ## Lemmas: one definition in phase 2 -/

theorem processDef_command_matched (argv : List String) (st : PState) (d : Definition)
    (hty : d.type = DefType.command) (hocc : 0 < occurrenceCount d argv) :
    processDef argv st d =
      { st with
        matchedAny := true
        warnings := st.warnings ++ warnRepeated DefType.command d (occurrenceCount d argv)
        context :=
          { st.context with
            commands := st.context.commands ++
              List.replicate (if d.options.repeatable then occurrenceCount d argv else 1)
                d.«alias».primary } } := by
  simp only [processDef, hty, occurrenceCount] at *
  rw [if_pos hocc]

theorem processDef_command_absent (argv : List String) (st : PState) (d : Definition)
    (hty : d.type = DefType.command) (hocc : ¬0 < occurrenceCount d argv) :
    processDef argv st d = st := by
  simp only [processDef, hty, occurrenceCount] at *
  rw [if_neg hocc]

theorem processDef_flag_matched (argv : List String) (st : PState) (d : Definition)
    (hty : d.type = DefType.flag) (hocc : 0 < occurrenceCount d argv) :
    processDef argv st d =
      { context :=
          { st.context with
            flags := setKey st.context.flags d.«alias».primary
              (flagFinal d (flagOcc argv st d).values)
            input := (flagOcc argv st d).input }
        usedValues := (flagOcc argv st d).usedValues
        consumed := (flagOcc argv st d).consumed
        processedFlags := addToSet st.processedFlags d.«alias».primary
        matchedAny := true
        warnings := (flagOcc argv st d).warnings } := by
  simp only [processDef, hty, occurrenceCount] at *
  rw [if_pos hocc]

theorem processDef_flag_absent (argv : List String) (st : PState) (d : Definition)
    (hty : d.type = DefType.flag) (hocc : ¬0 < occurrenceCount d argv) :
    processDef argv st d =
      { st with
        context :=
          { st.context with
            flags :=
              match flagAbsentValue d with
              | some v =>
                setKey st.context.flags d.«alias».primary
                  (if d.options.repeatable then StoredValue.list [v] else StoredValue.single v)
              | none => st.context.flags }
        warnings := st.warnings ++
          (if d.options.isRequired = true ∧ flagAbsentValue d = none then
            [Warning.missingRequired d.«alias».primary]
          else []) } := by
  simp only [processDef, hty, occurrenceCount] at *
  rw [if_neg hocc]

/-- The entry state of the occurrence loop keeps the phase-2 sets. -/
theorem initOcc_fields (st : PState) (W : List Warning) :
    (initOcc st W).usedValues = st.usedValues ∧ (initOcc st W).consumed = st.consumed ∧
      (initOcc st W).values = [] ∧ (initOcc st W).warnings = st.warnings ++ W := by
  exact ⟨rfl, rfl, rfl, rfl⟩

theorem processDef_inv (argv : List String) (st : PState) (d : Definition)
    (h : PInv st) : PInv (processDef argv st d) := by
  cases hty : d.type with
  | command =>
    by_cases hocc : 0 < occurrenceCount d argv
    · rw [processDef_command_matched argv st d hty hocc]; exact h
    · rw [processDef_command_absent argv st d hty hocc]; exact h
  | flag =>
    by_cases hocc : 0 < occurrenceCount d argv
    · rw [processDef_flag_matched argv st d hty hocc]
      have hoc : OccInv (flagOcc argv st d) := by
        apply processOccurrences_inv
        exact ⟨h.1, h.2⟩
      exact ⟨hoc.1, hoc.2⟩
    · rw [processDef_flag_absent argv st d hty hocc]; exact h

theorem processDef_used_mono (argv : List String) (st : PState) (d : Definition)
    {x : String} (hx : x ∈ st.usedValues) : x ∈ (processDef argv st d).usedValues := by
  cases hty : d.type with
  | command =>
    by_cases hocc : 0 < occurrenceCount d argv
    · rw [processDef_command_matched argv st d hty hocc]; exact hx
    · rw [processDef_command_absent argv st d hty hocc]; exact hx
  | flag =>
    by_cases hocc : 0 < occurrenceCount d argv
    · rw [processDef_flag_matched argv st d hty hocc]
      exact processOccurrences_used_mono _ _ _ _ _ hx
    · rw [processDef_flag_absent argv st d hty hocc]; exact hx

theorem processDef_matchedAny (argv : List String) (st : PState) (d : Definition) :
    (processDef argv st d).matchedAny = (st.matchedAny || hasOccurrence d argv) := by
  cases hty : d.type with
  | command =>
    by_cases hocc : 0 < occurrenceCount d argv
    · rw [processDef_command_matched argv st d hty hocc]
      simp [hasOccurrence, hocc]
    · rw [processDef_command_absent argv st d hty hocc]
      simp [hasOccurrence, hocc]
  | flag =>
    by_cases hocc : 0 < occurrenceCount d argv
    · rw [processDef_flag_matched argv st d hty hocc]
      simp [hasOccurrence, hocc]
    · rw [processDef_flag_absent argv st d hty hocc]
      simp [hasOccurrence, hocc]

theorem warnRepeated_fromParsing (t : DefType) (d : Definition) (n : Nat) :
    ∀ w ∈ warnRepeated t d n, w.fromParsing = true := by
  intro w hw
  unfold warnRepeated at hw
  split at hw
  · simp at hw
    rw [hw]
    rfl
  · simp at hw

theorem choice_fromParsing {w : Warning} (h : w.isChoiceWarning = true) :
    w.fromParsing = true := by
  cases w <;> first
    | rfl
    | simp [Warning.isChoiceWarning] at h

theorem flagOcc_warnings (argv : List String) (st : PState) (d : Definition) :
    ∃ W, (flagOcc argv st d).warnings =
        st.warnings ++ warnRepeated DefType.flag d (occurrenceCount d argv) ++ W ∧
      ∀ w ∈ W, w.isChoiceWarning = true := by
  obtain ⟨W, hW, hWP⟩ :=
    processOccurrences_warnings d.options d.«alias».primary argv
      (occIndices d.«alias».value argv)
      (initOcc st (warnRepeated DefType.flag d (occIndices d.«alias».value argv).length))
  exact ⟨W, by rw [flagOcc, hW, initOcc, occurrenceCount], hWP⟩

theorem processDef_warnings (argv : List String) (st : PState) (d : Definition) :
    ∃ W, (processDef argv st d).warnings = st.warnings ++ W ∧
      ∀ w ∈ W, w.fromParsing = true := by
  cases hty : d.type with
  | command =>
    by_cases hocc : 0 < occurrenceCount d argv
    · rw [processDef_command_matched argv st d hty hocc]
      exact ⟨_, rfl, warnRepeated_fromParsing _ d _⟩
    · rw [processDef_command_absent argv st d hty hocc]
      exact ⟨[], by simp, by intro w hw; simp at hw⟩
  | flag =>
    by_cases hocc : 0 < occurrenceCount d argv
    · rw [processDef_flag_matched argv st d hty hocc]
      obtain ⟨W, hW, hWP⟩ := flagOcc_warnings argv st d
      refine ⟨warnRepeated DefType.flag d (occurrenceCount d argv) ++ W, ?_, ?_⟩
      · rw [hW, List.append_assoc]
      · intro w hw
        rcases List.mem_append.1 hw with h | h
        · exact warnRepeated_fromParsing _ d _ w h
        · exact choice_fromParsing (hWP w h)
    · rw [processDef_flag_absent argv st d hty hocc]
      refine ⟨_, rfl, ?_⟩
      intro w hw
      split at hw
      · simp at hw
        rw [hw]
        rfl
      · simp at hw

theorem processDefs_inv (argv : List String) :
    ∀ (l : List Definition) (st : PState), PInv st → PInv (processDefs argv st l) := by
  intro l
  induction l with
  | nil => intro st h; exact h
  | cons d rest ih =>
    intro st h
    rw [processDefs]
    exact ih _ (processDef_inv argv st d h)

theorem processDefs_used_mono (argv : List String) {x : String} :
    ∀ (l : List Definition) (st : PState), x ∈ st.usedValues →
      x ∈ (processDefs argv st l).usedValues := by
  intro l
  induction l with
  | nil => intro st h; exact h
  | cons d rest ih =>
    intro st h
    rw [processDefs]
    exact ih _ (processDef_used_mono argv st d h)

theorem processDefs_matchedAny (argv : List String) :
    ∀ (l : List Definition) (st : PState),
      (processDefs argv st l).matchedAny =
        (st.matchedAny || l.any (fun d => hasOccurrence d argv)) := by
  intro l
  induction l with
  | nil => intro st; simp [processDefs]
  | cons d rest ih =>
    intro st
    rw [processDefs, ih, processDef_matchedAny]
    simp [Bool.or_assoc]

theorem processDefs_warnings (argv : List String) :
    ∀ (l : List Definition) (st : PState),
      ∃ W, (processDefs argv st l).warnings = st.warnings ++ W ∧
        ∀ w ∈ W, w.fromParsing = true := by
  intro l
  induction l with
  | nil =>
    intro st
    exact ⟨[], by simp [processDefs], by intro w hw; simp at hw⟩
  | cons d rest ih =>
    intro st
    rw [processDefs]
    obtain ⟨W1, hW1, hW1P⟩ := processDef_warnings argv st d
    obtain ⟨W2, hW2, hW2P⟩ := ih (processDef argv st d)
    refine ⟨W1 ++ W2, ?_, ?_⟩
    · rw [hW2, hW1, List.append_assoc]
    · intro w hw
      rcases List.mem_append.1 hw with h | h
      · exact hW1P w h
      · exact hW2P w h

theorem addAliases_warnings :
    ∀ (l : List String) (acc : List String × List Warning),
      ∃ W, (addAliases acc l).2 = acc.2 ++ W ∧ ∀ w ∈ W, w.fromParsing = true := by
  intro l
  induction l with
  | nil =>
    intro acc
    exact ⟨[], by simp [addAliases], by intro w hw; simp at hw⟩
  | cons a rest ih =>
    intro acc
    rw [addAliases]
    split
    · obtain ⟨W, hW, hWP⟩ := ih (acc.1, acc.2 ++ [Warning.duplicateAlias a])
      refine ⟨[Warning.duplicateAlias a] ++ W, ?_, ?_⟩
      · rw [hW]
        simp
      · intro w hw
        rcases List.mem_append.1 hw with h | h
        · simp at h
          rw [h]
          rfl
        · exact hWP w h
    · obtain ⟨W, hW, hWP⟩ := ih (acc.1 ++ [a], acc.2)
      exact ⟨W, hW, hWP⟩

theorem collectAliases_warnings :
    ∀ (l : List Definition) (acc : List String × List Warning),
      ∃ W, (collectAliases acc l).2 = acc.2 ++ W ∧ ∀ w ∈ W, w.fromParsing = true := by
  intro l
  induction l with
  | nil =>
    intro acc
    exact ⟨[], by simp [collectAliases], by intro w hw; simp at hw⟩
  | cons d rest ih =>
    intro acc
    rw [collectAliases]
    obtain ⟨W1, hW1, hW1P⟩ := addAliases_warnings d.«alias».value acc
    obtain ⟨W2, hW2, hW2P⟩ := ih (addAliases acc d.«alias».value)
    refine ⟨W1 ++ W2, ?_, ?_⟩
    · rw [hW2, hW1, List.append_assoc]
    · intro w hw
      rcases List.mem_append.1 hw with h | h
      · exact hW1P w h
      · exact hW2P w h

/-! ## Lemmas: dispatch (phase 3) -/

theorem dispatchFrom_cons_fst (ctx : Context) (pf : List String) (i : Nat)
    (d : Definition) (rest : List Definition) :
    (dispatchFrom ctx pf i (d :: rest)).1 =
      if wasMatched ctx pf d then i :: (dispatchFrom ctx pf (i + 1) rest).1
      else (dispatchFrom ctx pf (i + 1) rest).1 := by
  simp only [dispatchFrom]
  split
  · cases d.handler ctx <;> rfl
  · rfl

theorem dispatchFrom_ge (ctx : Context) (pf : List String) :
    ∀ (l : List Definition) (i j : Nat), j ∈ (dispatchFrom ctx pf i l).1 → i ≤ j := by
  intro l
  induction l with
  | nil => intro i j h; simp [dispatchFrom] at h
  | cons d rest ih =>
    intro i j h
    rw [dispatchFrom_cons_fst] at h
    split at h
    · rcases List.mem_cons.1 h with rfl | h
      · exact Nat.le_refl j
      · exact Nat.le_of_succ_le (ih (i + 1) j h)
    · exact Nat.le_of_succ_le (ih (i + 1) j h)

theorem dispatchFrom_mem (ctx : Context) (pf : List String) :
    ∀ (l : List Definition) (i k : Nat) (d : Definition), l.get? k = some d →
      ((i + k) ∈ (dispatchFrom ctx pf i l).1 ↔ wasMatched ctx pf d = true) := by
  intro l
  induction l with
  | nil => intro i k d h; simp at h
  | cons d0 rest ih =>
    intro i k d h
    cases k with
    | zero =>
      simp only [List.get?] at h
      injection h with h
      subst h
      rw [dispatchFrom_cons_fst]
      constructor
      · intro hmem
        by_cases hm : wasMatched ctx pf d0
        · exact hm
        · rw [if_neg hm] at hmem
          have := dispatchFrom_ge ctx pf rest (i + 1) (i + 0) hmem
          omega
      · intro hm
        rw [if_pos hm]
        simp
    | succ k0 =>
      simp only [List.get?] at h
      rw [dispatchFrom_cons_fst]
      have harith : i + (k0 + 1) = (i + 1) + k0 := by omega
      split
      · constructor
        · intro hmem
          rcases List.mem_cons.1 hmem with heq | hmem
          · omega
          · exact (ih (i + 1) k0 d h).1 (harith ▸ hmem)
        · intro hm
          exact List.mem_cons_of_mem _ (harith ▸ (ih (i + 1) k0 d h).2 hm)
      · rw [harith]
        exact ih (i + 1) k0 d h

theorem dispatchFrom_err (ctx : Context) (pf : List String) :
    ∀ (l : List Definition) (i k : Nat) (d : Definition) (msg : String),
      l.get? k = some d → wasMatched ctx pf d = true → d.handler ctx = Except.error msg →
        Warning.handlerError false d.type d.«alias».primary msg ∈
          (dispatchFrom ctx pf i l).2 := by
  intro l
  induction l with
  | nil => intro i k d msg h; simp at h
  | cons d0 rest ih =>
    intro i k d msg h hm herr
    cases k with
    | zero =>
      simp only [List.get?] at h
      injection h with h
      subst h
      simp only [dispatchFrom]
      rw [if_pos hm, herr]
      simp
    | succ k0 =>
      simp only [List.get?] at h
      simp only [dispatchFrom]
      split
      · cases d0.handler ctx <;> simp only []
        · exact List.mem_cons_of_mem _ (ih (i + 1) k0 d msg h hm herr)
        · exact ih (i + 1) k0 d msg h hm herr
      · exact ih (i + 1) k0 d msg h hm herr

theorem dispatchFrom_warnings (ctx : Context) (pf : List String) :
    ∀ (l : List Definition) (i : Nat),
      ∀ w ∈ (dispatchFrom ctx pf i l).2,
        ∃ t p msg, w = Warning.handlerError false t p msg := by
  intro l
  induction l with
  | nil => intro i w h; simp [dispatchFrom] at h
  | cons d0 rest ih =>
    intro i w h
    simp only [dispatchFrom] at h
    split at h
    · revert h
      cases d0.handler ctx <;> simp only [] <;> intro h
      · rcases List.mem_cons.1 h with rfl | h
        · exact ⟨_, _, _, rfl⟩
        · exact ih (i + 1) w h
      · exact ih (i + 1) w h
    · exact ih (i + 1) w h

/-! ## Lemmas: the default arbiter (phase 4) -/

theorem firstDefaultFrom_none :
    ∀ (l : List Definition) (i : Nat),
      firstDefaultFrom i l = none ↔ ∀ d ∈ l, d.options.default = false := by
  intro l
  induction l with
  | nil => intro i; simp [firstDefaultFrom]
  | cons d0 rest ih =>
    intro i
    rw [firstDefaultFrom]
    split
    · next hd =>
      simp only [List.mem_cons]
      constructor
      · intro h; exact absurd h (by simp)
      · intro h
        have := h d0 (Or.inl rfl)
        rw [this] at hd
        exact absurd hd (by simp)
    · next hd =>
      rw [ih (i + 1)]
      simp only [List.mem_cons]
      constructor
      · intro h d hd'
        rcases hd' with rfl | hd'
        · cases hdef : d.options.default
          · rfl
          · exact absurd hdef hd
        · exact h d hd'
      · intro h d hd'
        exact h d (Or.inr hd')

theorem firstDefaultFrom_first :
    ∀ (l : List Definition) (i j : Nat) (d : Definition),
      firstDefaultFrom i l = some (j, d) →
        ∃ k, j = i + k ∧ l.get? k = some d ∧ d.options.default = true ∧
          ∀ m, m < k → ∀ d', l.get? m = some d' → d'.options.default = false := by
  intro l
  induction l with
  | nil => intro i j d h; simp [firstDefaultFrom] at h
  | cons d0 rest ih =>
    intro i j d h
    rw [firstDefaultFrom] at h
    split at h
    · next hd =>
      injection h with h
      injection h with h1 h2
      subst h2
      refine ⟨0, by omega, rfl, hd, ?_⟩
      intro m hm
      omega
    · next hd =>
      obtain ⟨k, hk, hget, hdef, hfirst⟩ := ih (i + 1) j d h
      refine ⟨k + 1, by omega, hget, hdef, ?_⟩
      intro m hm d' hget'
      cases m with
      | zero =>
        simp only [List.get?] at hget'
        injection hget' with hget'
        subst hget'
        cases hdef0 : d0.options.default
        · rfl
        · exact absurd hdef0 hd
      | succ m0 =>
        exact hfirst m0 (by omega) d' hget'

theorem runDefaultWith_defaultFired (argv : List String) (ctx : Context)
    (u c pf : List String) (w m : List Warning) (sel : Option (Nat × Definition)) :
    (runDefaultWith argv ctx u c pf w m sel).defaultFired = sel.map Prod.fst := by
  cases sel with
  | none => rfl
  | some p =>
    obtain ⟨i, d⟩ := p
    cases hty : d.type <;> simp [runDefaultWith, hty]

theorem runDefaultWith_warnings (argv : List String) (ctx : Context)
    (u c pf : List String) (w m : List Warning) (sel : Option (Nat × Definition)) :
    ∃ W, (runDefaultWith argv ctx u c pf w m sel).warnings = w ++ m ++ W ∧
      ∀ x ∈ W, x.isMultiDefault = false ∧ x.isUnknownWarning = false := by
  cases sel with
  | none => exact ⟨[], by simp [runDefaultWith], by intro x hx; simp at hx⟩
  | some p =>
    obtain ⟨i, d⟩ := p
    cases hty : d.type with
    | command =>
      simp only [runDefaultWith, hty]
      refine ⟨_, rfl, ?_⟩
      intro x hx
      split at hx
      · simp at hx
      · simp at hx
        rw [hx]
        exact ⟨rfl, rfl⟩
    | flag =>
      simp only [runDefaultWith, hty]
      refine ⟨_, List.append_assoc _ _ _, ?_⟩
      intro x hx
      rcases List.mem_append.1 hx with hx | hx
      · have := occValue_snd_choice d.options d.«alias».primary _ x hx
        cases x <;> first
          | exact ⟨rfl, rfl⟩
          | simp [Warning.isChoiceWarning] at this
      · split at hx
        · simp at hx
        · simp at hx
          rw [hx]
          exact ⟨rfl, rfl⟩

theorem runDefaultWith_inv (argv : List String) (ctx : Context)
    (u c pf : List String) (w m : List Warning) (sel : Option (Nat × Definition))
    (he : u = c) (hn : c.Nodup) :
    (runDefaultWith argv ctx u c pf w m sel).usedValues =
        (runDefaultWith argv ctx u c pf w m sel).consumed ∧
      (runDefaultWith argv ctx u c pf w m sel).consumed.Nodup := by
  subst he
  cases sel with
  | none => exact ⟨rfl, hn⟩
  | some p =>
    obtain ⟨i, d⟩ := p
    cases hty : d.type with
    | command =>
      cases argv with
      | nil => simp [runDefaultWith, hty, hn]
      | cons a0 tl =>
        simp only [runDefaultWith, hty]
        split
        · next s hcond =>
          split at hcond
          · next hc =>
            injection hcond with hcond
            subst hcond
            rw [addToSet_of_not_mem hc.1]
            exact ⟨rfl, by simp [List.nodup_append, hn, hc.1]⟩
          · exact absurd hcond (by simp)
        · exact ⟨rfl, hn⟩
    | flag =>
      cases argv with
      | nil => simp [runDefaultWith, hty, hn]
      | cons a0 tl =>
        simp only [runDefaultWith, hty]
        split
        · next s hcond =>
          split at hcond
          · next hc =>
            injection hcond with hcond
            subst hcond
            rw [addToSet_of_not_mem hc.1]
            exact ⟨rfl, by simp [List.nodup_append, hn, hc.1]⟩
          · exact absurd hcond (by simp)
        · exact ⟨rfl, hn⟩

theorem phase2_inv (defs : List Definition) (argv : List String) :
    PInv (phase2 defs argv) := by
  apply processDefs_inv
  exact ⟨rfl, List.nodup_nil⟩

theorem phase2_matchedAny (defs : List Definition) (argv : List String) :
    (phase2 defs argv).matchedAny = defs.any (fun d => hasOccurrence d argv) := by
  unfold phase2
  rw [processDefs_matchedAny]
  rfl

theorem phase2_warnings (defs : List Definition) (argv : List String) :
    ∀ w ∈ (phase2 defs argv).warnings, w.fromParsing = true := by
  unfold phase2
  obtain ⟨W, hW, hWP⟩ := processDefs_warnings argv defs (initState (collectAliases ([], []) defs).2)
  rw [hW]
  intro w hw
  rcases List.mem_append.1 hw with hw | hw
  · obtain ⟨W0, hW0, hW0P⟩ := collectAliases_warnings defs ([], [])
    rw [show (initState (collectAliases ([], []) defs).2).warnings =
        (collectAliases ([], []) defs).2 from rfl, hW0] at hw
    simp at hw
    exact hW0P w hw
  · exact hWP w hw

theorem processDef_shape (argv : List String) (st : PState) {d d2 : Definition}
    (h : d.shape = d2.shape) : processDef argv st d = processDef argv st d2 := by
  cases d with
  | mk t a hd o =>
    cases d2 with
    | mk t2 a2 hd2 o2 =>
      simp only [Definition.shape, DefShape.mk.injEq] at h
      obtain ⟨rfl, rfl, rfl⟩ := h
      rfl

theorem processDefs_shape (argv : List String) :
    ∀ (l l2 : List Definition) (st : PState),
      l.map Definition.shape = l2.map Definition.shape →
        processDefs argv st l = processDefs argv st l2 := by
  intro l
  induction l with
  | nil =>
    intro l2 st h
    cases l2 with
    | nil => rfl
    | cons d2 rest2 => simp at h
  | cons d rest ih =>
    intro l2 st h
    cases l2 with
    | nil => simp at h
    | cons d2 rest2 =>
      simp only [List.map_cons, List.cons.injEq] at h
      rw [processDefs, processDefs, processDef_shape argv st h.1, ih rest2 _ h.2]

theorem collectAliases_shape :
    ∀ (l l2 : List Definition) (acc : List String × List Warning),
      l.map Definition.shape = l2.map Definition.shape →
        collectAliases acc l = collectAliases acc l2 := by
  intro l
  induction l with
  | nil =>
    intro l2 acc h
    cases l2 with
    | nil => rfl
    | cons d2 rest2 => simp at h
  | cons d rest ih =>
    intro l2 acc h
    cases l2 with
    | nil => simp at h
    | cons d2 rest2 =>
      simp only [List.map_cons, List.cons.injEq] at h
      have ha : d.«alias» = d2.«alias» := congrArg DefShape.«alias» h.1
      rw [collectAliases, collectAliases, ha, ih rest2 _ h.2]

theorem wasMatched_shape (ctx : Context) (pf : List String) {d d2 : Definition}
    (h : d.shape = d2.shape) : wasMatched ctx pf d = wasMatched ctx pf d2 := by
  cases d with
  | mk t a hd o =>
    cases d2 with
    | mk t2 a2 hd2 o2 =>
      simp only [Definition.shape, DefShape.mk.injEq] at h
      obtain ⟨rfl, rfl, rfl⟩ := h
      rfl

theorem dispatchFrom_fst_shape (ctx : Context) (pf : List String) :
    ∀ (l l2 : List Definition) (i : Nat),
      l.map Definition.shape = l2.map Definition.shape →
        (dispatchFrom ctx pf i l).1 = (dispatchFrom ctx pf i l2).1 := by
  intro l
  induction l with
  | nil =>
    intro l2 i h
    cases l2 with
    | nil => rfl
    | cons d2 rest2 => simp at h
  | cons d rest ih =>
    intro l2 i h
    cases l2 with
    | nil => simp at h
    | cons d2 rest2 =>
      simp only [List.map_cons, List.cons.injEq] at h
      rw [dispatchFrom_cons_fst, dispatchFrom_cons_fst, wasMatched_shape ctx pf h.1,
        ih rest2 (i + 1) h.2]

theorem firstDefaultFrom_shape :
    ∀ (l l2 : List Definition) (i : Nat),
      l.map Definition.shape = l2.map Definition.shape →
        (firstDefaultFrom i l).map (fun p => (p.1, p.2.shape)) =
          (firstDefaultFrom i l2).map (fun p => (p.1, p.2.shape)) := by
  intro l
  induction l with
  | nil =>
    intro l2 i h
    cases l2 with
    | nil => rfl
    | cons d2 rest2 => simp at h
  | cons d rest ih =>
    intro l2 i h
    cases l2 with
    | nil => simp at h
    | cons d2 rest2 =>
      simp only [List.map_cons, List.cons.injEq] at h
      have ho : d.options = d2.options := congrArg DefShape.options h.1
      rw [firstDefaultFrom, firstDefaultFrom, ho]
      split
      · simp [h.1]
      · exact ih rest2 (i + 1) h.2

theorem runDefaultWith_noWarnFields (argv : List String) (ctx : Context)
    (u c pf : List String) (w1 w2 m1 m2 : List Warning)
    (sel1 sel2 : Option (Nat × Definition))
    (h : sel1.map (fun p => (p.1, p.2.shape)) = sel2.map (fun p => (p.1, p.2.shape))) :
    (runDefaultWith argv ctx u c pf w1 m1 sel1).context =
        (runDefaultWith argv ctx u c pf w2 m2 sel2).context ∧
      (runDefaultWith argv ctx u c pf w1 m1 sel1).usedValues =
        (runDefaultWith argv ctx u c pf w2 m2 sel2).usedValues ∧
      (runDefaultWith argv ctx u c pf w1 m1 sel1).consumed =
        (runDefaultWith argv ctx u c pf w2 m2 sel2).consumed ∧
      (runDefaultWith argv ctx u c pf w1 m1 sel1).processedFlags =
        (runDefaultWith argv ctx u c pf w2 m2 sel2).processedFlags ∧
      (runDefaultWith argv ctx u c pf w1 m1 sel1).defaultFired =
        (runDefaultWith argv ctx u c pf w2 m2 sel2).defaultFired := by
  cases sel1 with
  | none =>
    cases sel2 with
    | none => exact ⟨rfl, rfl, rfl, rfl, rfl⟩
    | some p => simp at h
  | some p =>
    cases sel2 with
    | none => simp at h
    | some p2 =>
      obtain ⟨i, d⟩ := p
      obtain ⟨i2, d2⟩ := p2
      simp only [Option.map] at h
      injection h with h
      injection h with h1 h2
      subst h1
      cases d with
      | mk t a hd o =>
        cases d2 with
        | mk t2 a2 hd2 o2 =>
          simp only [Definition.shape, DefShape.mk.injEq] at h2
          obtain ⟨rfl, rfl, rfl⟩ := h2
          cases t <;> exact ⟨rfl, rfl, rfl, rfl, rfl⟩

/-! ## Lemmas: the assembled call -/

theorem cliPhases14_matched (l : List Definition) (argv : List String)
    (hma : (phase2 l argv).matchedAny = true) :
    cliPhases14 l argv =
      { context := (phase2 l argv).context
        warnings := (phase2 l argv).warnings ++
          (dispatchFrom (phase2 l argv).context (phase2 l argv).processedFlags 0 l).2
        fired := (dispatchFrom (phase2 l argv).context (phase2 l argv).processedFlags 0 l).1
        defaultFired := none
        usedValues := (phase2 l argv).usedValues
        consumed := (phase2 l argv).consumed
        processedFlags := (phase2 l argv).processedFlags
        knownAliases := (collectAliases ([], []) l).1
        matchedAny := true
        unknownArgs := [] } := by
  simp only [cliPhases14, hma, if_true]

theorem cliPhases14_unmatched (l : List Definition) (argv : List String)
    (hma : (phase2 l argv).matchedAny = false) :
    cliPhases14 l argv =
      { context :=
          (runDefaultWith argv (phase2 l argv).context (phase2 l argv).usedValues
            (phase2 l argv).consumed (phase2 l argv).processedFlags
            ((phase2 l argv).warnings ++
              (dispatchFrom (phase2 l argv).context (phase2 l argv).processedFlags 0 l).2)
            (multiWarn l) (firstDefaultFrom 0 l)).context
        warnings :=
          (runDefaultWith argv (phase2 l argv).context (phase2 l argv).usedValues
            (phase2 l argv).consumed (phase2 l argv).processedFlags
            ((phase2 l argv).warnings ++
              (dispatchFrom (phase2 l argv).context (phase2 l argv).processedFlags 0 l).2)
            (multiWarn l) (firstDefaultFrom 0 l)).warnings
        fired := (dispatchFrom (phase2 l argv).context (phase2 l argv).processedFlags 0 l).1
        defaultFired :=
          (runDefaultWith argv (phase2 l argv).context (phase2 l argv).usedValues
            (phase2 l argv).consumed (phase2 l argv).processedFlags
            ((phase2 l argv).warnings ++
              (dispatchFrom (phase2 l argv).context (phase2 l argv).processedFlags 0 l).2)
            (multiWarn l) (firstDefaultFrom 0 l)).defaultFired
        usedValues :=
          (runDefaultWith argv (phase2 l argv).context (phase2 l argv).usedValues
            (phase2 l argv).consumed (phase2 l argv).processedFlags
            ((phase2 l argv).warnings ++
              (dispatchFrom (phase2 l argv).context (phase2 l argv).processedFlags 0 l).2)
            (multiWarn l) (firstDefaultFrom 0 l)).usedValues
        consumed :=
          (runDefaultWith argv (phase2 l argv).context (phase2 l argv).usedValues
            (phase2 l argv).consumed (phase2 l argv).processedFlags
            ((phase2 l argv).warnings ++
              (dispatchFrom (phase2 l argv).context (phase2 l argv).processedFlags 0 l).2)
            (multiWarn l) (firstDefaultFrom 0 l)).consumed
        processedFlags :=
          (runDefaultWith argv (phase2 l argv).context (phase2 l argv).usedValues
            (phase2 l argv).consumed (phase2 l argv).processedFlags
            ((phase2 l argv).warnings ++
              (dispatchFrom (phase2 l argv).context (phase2 l argv).processedFlags 0 l).2)
            (multiWarn l) (firstDefaultFrom 0 l)).processedFlags
        knownAliases := (collectAliases ([], []) l).1
        matchedAny := false
        unknownArgs := [] } := by
  simp only [cliPhases14, hma, if_false, runDefault, Bool.false_eq_true]

theorem cli_context (l : List Definition) (argv : List String) :
    (cli l argv).context = (cliPhases14 l argv).context := rfl

theorem cli_fired (l : List Definition) (argv : List String) :
    (cli l argv).fired = (cliPhases14 l argv).fired := rfl

theorem cli_defaultFired (l : List Definition) (argv : List String) :
    (cli l argv).defaultFired = (cliPhases14 l argv).defaultFired := rfl

theorem cli_usedValues (l : List Definition) (argv : List String) :
    (cli l argv).usedValues = (cliPhases14 l argv).usedValues := rfl

theorem cli_consumed (l : List Definition) (argv : List String) :
    (cli l argv).consumed = (cliPhases14 l argv).consumed := rfl

theorem cli_processedFlags (l : List Definition) (argv : List String) :
    (cli l argv).processedFlags = (cliPhases14 l argv).processedFlags := rfl

theorem cli_knownAliases (l : List Definition) (argv : List String) :
    (cli l argv).knownAliases = (cliPhases14 l argv).knownAliases := rfl

theorem cli_matchedAny (l : List Definition) (argv : List String) :
    (cli l argv).matchedAny = (cliPhases14 l argv).matchedAny := rfl

theorem cli_unknownArgs_eq (l : List Definition) (argv : List String) :
    (cli l argv).unknownArgs =
      unknownArguments argv (cliPhases14 l argv).knownAliases
        (cliPhases14 l argv).usedValues (cliPhases14 l argv).context
        (cliPhases14 l argv).processedFlags := rfl

theorem cli_warnings_eq (l : List Definition) (argv : List String) :
    (cli l argv).warnings =
      (cliPhases14 l argv).warnings ++
        (if (cli l argv).unknownArgs = [] then []
         else [Warning.unknownArgs (cli l argv).unknownArgs]) := rfl

theorem cliPhases14_matchedAny (l : List Definition) (argv : List String) :
    (cliPhases14 l argv).matchedAny = (phase2 l argv).matchedAny := by
  cases hma : (phase2 l argv).matchedAny
  · rw [cliPhases14_unmatched l argv hma]
  · rw [cliPhases14_matched l argv hma]

theorem cliPhases14_fired (l : List Definition) (argv : List String) :
    (cliPhases14 l argv).fired =
      (dispatchFrom (phase2 l argv).context (phase2 l argv).processedFlags 0 l).1 := by
  cases hma : (phase2 l argv).matchedAny
  · rw [cliPhases14_unmatched l argv hma]
  · rw [cliPhases14_matched l argv hma]

theorem cliPhases14_defaultFired (l : List Definition) (argv : List String) :
    (cliPhases14 l argv).defaultFired =
      (if (phase2 l argv).matchedAny then none
       else (firstDefaultFrom 0 l).map Prod.fst) := by
  cases hma : (phase2 l argv).matchedAny
  · rw [cliPhases14_unmatched l argv hma]
    simp only [Bool.false_eq_true, if_false]
    exact runDefaultWith_defaultFired _ _ _ _ _ _ _ _
  · rw [cliPhases14_matched l argv hma]
    simp

theorem cliPhases14_inv (l : List Definition) (argv : List String) :
    (cliPhases14 l argv).usedValues = (cliPhases14 l argv).consumed ∧
      (cliPhases14 l argv).consumed.Nodup := by
  obtain ⟨he, hn⟩ := phase2_inv l argv
  cases hma : (phase2 l argv).matchedAny
  · rw [cliPhases14_unmatched l argv hma]
    exact runDefaultWith_inv _ _ _ _ _ _ _ _ he hn
  · rw [cliPhases14_matched l argv hma]
    exact ⟨he, hn⟩

theorem mem_multiWarn (l : List Definition) (c : String) :
    Warning.multipleDefaults c ∈ multiWarn l ↔
      1 < countDefaults l ∧
        ∃ i d, firstDefaultFrom 0 l = some (i, d) ∧ c = d.«alias».primary := by
  unfold multiWarn
  split
  · next hcount =>
    cases hsel : firstDefaultFrom 0 l with
    | none =>
      simp only [hsel]
      constructor
      · intro h; simp at h
      · rintro ⟨_, i, d, h, _⟩
        exact absurd h (by simp)
    | some p =>
      obtain ⟨i, d⟩ := p
      simp only [hsel, List.mem_singleton, Warning.multipleDefaults.injEq]
      constructor
      · intro h
        exact ⟨hcount, i, d, rfl, h⟩
      · rintro ⟨_, i2, d2, hs, rfl⟩
        injection hs with hs
        injection hs with h1 h2
        rw [h2]
  · next hcount =>
    constructor
    · intro h; simp at h
    · rintro ⟨hc, _⟩
      exact absurd hc hcount

theorem cli_warnings_split (l : List Definition) (argv : List String) :
    ∃ Wrest,
      (∀ w ∈ Wrest, w.isMultiDefault = false ∧ w.isUnknownWarning = false) ∧
      (cli l argv).warnings =
        (phase2 l argv).warnings ++
          (dispatchFrom (phase2 l argv).context (phase2 l argv).processedFlags 0 l).2 ++
          (if (phase2 l argv).matchedAny then [] else multiWarn l) ++ Wrest ++
          (if (cli l argv).unknownArgs = [] then []
           else [Warning.unknownArgs (cli l argv).unknownArgs]) := by
  rw [cli_warnings_eq]
  cases hma : (phase2 l argv).matchedAny
  · rw [cliPhases14_unmatched l argv hma]
    obtain ⟨W, hW, hWP⟩ :=
      runDefaultWith_warnings argv (phase2 l argv).context (phase2 l argv).usedValues
        (phase2 l argv).consumed (phase2 l argv).processedFlags
        ((phase2 l argv).warnings ++
          (dispatchFrom (phase2 l argv).context (phase2 l argv).processedFlags 0 l).2)
        (multiWarn l) (firstDefaultFrom 0 l)
    refine ⟨W, hWP, ?_⟩
    simp only [hW, Bool.false_eq_true, if_false]
  · rw [cliPhases14_matched l argv hma]
    exact ⟨[], by intro w hw; simp at hw, by simp⟩

/-! ## Claim theorems -/

/-- C6: for every flag with `isBoolean: true` and every argv, no occurrence of
the flag ever consumes the following argv token, whatever that token's
content — processing the definition leaves the used-token set and the
consumption log untouched — and each occurrence's value is the literal
`true`: with `N > 0` occurrences the stored entry under the primary alias is
the single value `true`, or an `N`-length list of `true` when repeatable. -/
theorem c6_boolean_never_consumes (argv : List String) (st : PState) (d : Definition)
    (hty : d.type = DefType.flag) (hb : d.options.isBoolean = true) :
    (processDef argv st d).usedValues = st.usedValues ∧
    (processDef argv st d).consumed = st.consumed ∧
    (0 < occurrenceCount d argv →
      lookupFlag (processDef argv st d).context.flags d.«alias».primary =
        some (if d.options.repeatable then
            StoredValue.list
              (List.replicate (occurrenceCount d argv) (FlagValue.bool true))
          else StoredValue.single (FlagValue.bool true))) := by
  by_cases hocc : 0 < occurrenceCount d argv
  · have hfo := processOccurrences_isBoolean d.options d.«alias».primary argv hb
      (occIndices d.«alias».value argv)
      (initOcc st (warnRepeated DefType.flag d (occIndices d.«alias».value argv).length))
    have hvals : (flagOcc argv st d).values =
        List.replicate (occurrenceCount d argv) (FlagValue.bool true) := by
      unfold flagOcc
      rw [hfo]
      rfl
    have hused : (flagOcc argv st d).usedValues = st.usedValues := by
      unfold flagOcc
      rw [hfo]
      rfl
    have hcons : (flagOcc argv st d).consumed = st.consumed := by
      unfold flagOcc
      rw [hfo]
      rfl
    rw [processDef_flag_matched argv st d hty hocc]
    refine ⟨hused, hcons, ?_⟩
    intro _
    rw [lookupFlag_setKey, hvals]
    unfold flagFinal
    by_cases hrep : d.options.repeatable = true
    · rw [if_pos hrep, if_pos hrep]
    · have hrep' : d.options.repeatable = false := by
        cases hr : d.options.repeatable
        · rfl
        · exact absurd hr hrep
      simp only [hrep', Bool.false_eq_true, if_false, getLastD_replicate]
  · rw [processDef_flag_absent argv st d hty hocc]
    exact ⟨rfl, rfl, fun h => absurd h hocc⟩

/-- Witness for C6 at `flag(["--quiet"], h, {isBoolean:true})` with argv
`["--quiet", "val"]`. -/
theorem c6_boolean_never_consumes_witness :
    exFlagBool.type = DefType.flag ∧ exFlagBool.options.isBoolean = true ∧
      ((processDef ["--quiet", "val"] (initState []) exFlagBool).usedValues =
          (initState []).usedValues ∧
        (processDef ["--quiet", "val"] (initState []) exFlagBool).consumed =
          (initState []).consumed ∧
        (0 < occurrenceCount exFlagBool ["--quiet", "val"] →
          lookupFlag
              (processDef ["--quiet", "val"] (initState []) exFlagBool).context.flags
              exFlagBool.«alias».primary =
            some (if exFlagBool.options.repeatable then
                StoredValue.list
                  (List.replicate (occurrenceCount exFlagBool ["--quiet", "val"])
                    (FlagValue.bool true))
              else StoredValue.single (FlagValue.bool true)))) :=
  ⟨rfl, rfl, c6_boolean_never_consumes ["--quiet", "val"] (initState []) exFlagBool rfl rfl⟩

/-- C7: when a flag value resolves outside a configured non-empty choices
list (by JS string conversion), an invalid-choice warning is emitted and the
result is the configured `defaultValue` when one exists and otherwise the
originally supplied value; validation is a total substitution that never
aborts, and the engine stores exactly the substituted value for the
occurrence that consumed the invalid token. -/
theorem c7_invalid_choice (value : FlagValue) (choices : List FlagValue)
    (flagName : String) (dv : Option FlagValue) (hne : choices ≠ [])
    (hmiss : value.toJs ∉ choices.map FlagValue.toJs) :
    validateChoice value choices flagName dv =
      (dv.getD value, [Warning.invalidChoice flagName value choices]) ∧
    (∀ (opts : Options) (p : String) (argv : List String) (st : OccState)
        (i : Nat) (s : String),
      opts.isBoolean = false → opts.choices = some choices → opts.defaultValue = dv →
      argv.get? (i + 1) = some s → FlagValue.str s = value →
      s ≠ "" → startsWithDash s = false → s ∉ st.usedValues →
      (processOccurrence opts p argv st i).values = st.values ++ [dv.getD value] ∧
        Warning.invalidChoice p value choices ∈
          (processOccurrence opts p argv st i).warnings) := by
  have hmain : validateChoice value choices flagName dv =
      (dv.getD value, [Warning.invalidChoice flagName value choices]) :=
    validateChoice_miss value choices flagName dv hne hmiss
  refine ⟨hmain, ?_⟩
  intro opts p argv st i s hb hch hdv hnext hval h1 h2 h3
  rw [processOccurrence_consume opts p argv st i s hb hnext h1 h2 h3]
  have hne2 : FlagValue.str s ≠ FlagValue.bool true := by
    intro h
    exact FlagValue.noConfusion h
  have hocc : occValue opts p (FlagValue.str s) =
      (dv.getD value, [Warning.invalidChoice p value choices]) := by
    simp only [occValue, hch]
    rw [if_pos hne2, hval, hdv]
    exact validateChoice_miss value choices p dv hne hmiss
  rw [hocc]
  exact ⟨rfl, by simp⟩

/-- Witness for C7 at `flag(["--port"], h, {choices:["3000","4000"],
defaultValue:"3000"})` receiving the invalid value "z". -/
theorem c7_invalid_choice_witness :
    ([FlagValue.str "3000", FlagValue.str "4000"] : List FlagValue) ≠ [] ∧
      (FlagValue.str "z").toJs ∉
        ([FlagValue.str "3000", FlagValue.str "4000"].map FlagValue.toJs) ∧
      (validateChoice (FlagValue.str "z") [FlagValue.str "3000", FlagValue.str "4000"]
          "--port" (some (FlagValue.str "3000")) =
        (FlagValue.str "3000",
          [Warning.invalidChoice "--port" (FlagValue.str "z")
            [FlagValue.str "3000", FlagValue.str "4000"]])) ∧
      ((processOccurrence exFlagPort.options "--port" ["--port", "z"]
            (initOcc (initState []) []) 0).values =
          [] ++ [FlagValue.str "3000"] ∧
        Warning.invalidChoice "--port" (FlagValue.str "z")
            [FlagValue.str "3000", FlagValue.str "4000"] ∈
          (processOccurrence exFlagPort.options "--port" ["--port", "z"]
            (initOcc (initState []) []) 0).warnings) := by
  have h := c7_invalid_choice (FlagValue.str "z")
    [FlagValue.str "3000", FlagValue.str "4000"] "--port" (some (FlagValue.str "3000"))
    (by decide) (by decide)
  exact ⟨by decide, by decide, h.1,
    h.2 exFlagPort.options "--port" ["--port", "z"] (initOcc (initState []) []) 0 "z"
      rfl rfl rfl rfl rfl (by decide) (by decide) (by decide)⟩

/-- C10: the used-token bookkeeping is keyed by token text, not argv
position: the used set only ever grows through phase 2, and any non-boolean
flag occurrence whose following token's text is already in the used set does
not consume it — even at a fresh position — and pushes `defaultValue` (or
`true`) instead, leaving the used set and the consumption log unchanged. -/
theorem c10_text_keyed_bookkeeping (argv : List String) :
    (∀ (l : List Definition) (st : PState) (x : String),
      x ∈ st.usedValues → x ∈ (processDefs argv st l).usedValues) ∧
    (∀ (opts : Options) (p : String) (st : OccState) (i : Nat) (s : String),
      opts.isBoolean = false → argv.get? (i + 1) = some s → s ∈ st.usedValues →
      (processOccurrence opts p argv st i).values =
          st.values ++ [opts.defaultValue.getD (FlagValue.bool true)] ∧
        (processOccurrence opts p argv st i).usedValues = st.usedValues ∧
        (processOccurrence opts p argv st i).consumed = st.consumed) := by
  constructor
  · intro l st x hx
    exact processDefs_used_mono argv l st hx
  · intro opts p st i s hb hn hs
    exact processOccurrence_already_used opts p argv st i s hb hn hs

/-- Witness for C10: with "x" already consumed, a later occurrence at a
different position whose next token is again "x" does not consume it. -/
theorem c10_text_keyed_bookkeeping_witness :
    (({} : Options).isBoolean = false) ∧
      ((["-b", "x"] : List String).get? (0 + 1) = some "x") ∧ "x" ∈ exOccUsed.usedValues ∧
      ((processOccurrence {} "-b" ["-b", "x"] exOccUsed 0).values =
          exOccUsed.values ++ [({} : Options).defaultValue.getD (FlagValue.bool true)] ∧
        (processOccurrence {} "-b" ["-b", "x"] exOccUsed 0).usedValues =
          exOccUsed.usedValues ∧
        (processOccurrence {} "-b" ["-b", "x"] exOccUsed 0).consumed =
          exOccUsed.consumed) :=
  ⟨rfl, rfl, by decide,
    (c10_text_keyed_bookkeeping ["-b", "x"]).2 {} "-b" exOccUsed 0 "x" rfl rfl (by decide)⟩

/-- C4: in a single call no literal token is consumed as a value by more than
one flag occurrence: the consumption log of the whole call is duplicate-free
(and coincides with the used-token set), and an occurrence extends the log
only when its next token is not yet used — otherwise nothing is consumed and
the occurrence falls back. -/
theorem c4_single_consumption (defs : List Definition) (argv : List String) :
    (cli defs argv).consumed.Nodup ∧
    (cli defs argv).usedValues = (cli defs argv).consumed ∧
    (∀ (opts : Options) (p : String) (st : OccState) (i : Nat),
      (processOccurrence opts p argv st i).consumed ≠ st.consumed →
      ∃ s, argv.get? (i + 1) = some s ∧ s ∉ st.usedValues ∧
        (processOccurrence opts p argv st i).consumed = st.consumed ++ [s] ∧
        (processOccurrence opts p argv st i).usedValues = st.usedValues ++ [s]) := by
  refine ⟨?_, ?_, ?_⟩
  · rw [cli_consumed]
    exact (cliPhases14_inv defs argv).2
  · rw [cli_usedValues, cli_consumed]
    exact (cliPhases14_inv defs argv).1
  · intro opts p st i h
    exact processOccurrence_consumed_change opts p argv st i h

/-- Witness for C4 on `[flag(["-a"]), flag(["-b"])]` with argv
`["-a","x","-b","x"]`: the log records a single consumption of "x". -/
theorem c4_single_consumption_witness :
    (cli [exFlagA, exFlagB] ["-a", "x", "-b", "x"]).consumed.Nodup ∧
      (cli [exFlagA, exFlagB] ["-a", "x", "-b", "x"]).consumed = ["x"] ∧
      ((processOccurrence {} "-a" ["-a", "x", "-b", "x"]
            (initOcc (initState []) []) 0).consumed ≠
          (initOcc (initState []) []).consumed ∧
        ∃ s, (["-a", "x", "-b", "x"] : List String).get? (0 + 1) = some s ∧
          s ∉ (initOcc (initState []) []).usedValues ∧
          (processOccurrence {} "-a" ["-a", "x", "-b", "x"]
              (initOcc (initState []) []) 0).consumed =
            (initOcc (initState []) []).consumed ++ [s] ∧
          (processOccurrence {} "-a" ["-a", "x", "-b", "x"]
              (initOcc (initState []) []) 0).usedValues =
            (initOcc (initState []) []).usedValues ++ [s]) :=
  ⟨(c4_single_consumption [exFlagA, exFlagB] ["-a", "x", "-b", "x"]).1, by decide,
    by decide,
    (c4_single_consumption [exFlagA, exFlagB] ["-a", "x", "-b", "x"]).2.2
      {} "-a" (initOcc (initState []) []) 0 (by decide)⟩

/-- C5: a flag matched `N > 0` times accumulates one value per occurrence in
left-to-right order: the stored entry is the `N`-length per-occurrence list
when repeatable, else the last occurrence's value, and the non-repeatable
warning is emitted exactly when the flag is not repeatable and `N > 1`. -/
theorem c5_occurrence_aggregation (argv : List String) (st : PState) (d : Definition)
    (hty : d.type = DefType.flag) (hocc : 0 < occurrenceCount d argv) :
    (flagOcc argv st d).values.length = occurrenceCount d argv ∧
    lookupFlag (processDef argv st d).context.flags d.«alias».primary =
      some (if d.options.repeatable then StoredValue.list (flagOcc argv st d).values
        else StoredValue.single
          ((flagOcc argv st d).values.getLastD (FlagValue.bool true))) ∧
    ∃ W, (processDef argv st d).warnings = st.warnings ++ W ∧
      (Warning.nonRepeatable DefType.flag d.«alias».primary (occurrenceCount d argv) ∈ W ↔
        d.options.repeatable = false ∧ 1 < occurrenceCount d argv) := by
  refine ⟨?_, ?_, ?_⟩
  · unfold flagOcc
    rw [processOccurrences_values_length]
    simp [initOcc, occurrenceCount]
  · rw [processDef_flag_matched argv st d hty hocc, lookupFlag_setKey]
    unfold flagFinal
    rfl
  · rw [processDef_flag_matched argv st d hty hocc]
    obtain ⟨W2, hW2, hW2P⟩ := flagOcc_warnings argv st d
    refine ⟨warnRepeated DefType.flag d (occurrenceCount d argv) ++ W2, ?_, ?_⟩
    · rw [hW2, List.append_assoc]
    · constructor
      · intro hmem
        rcases List.mem_append.1 hmem with hmem | hmem
        · unfold warnRepeated at hmem
          split at hmem
          · next hcond => exact hcond
          · simp at hmem
        · have := hW2P _ hmem
          simp [Warning.isChoiceWarning] at this
      · intro hcond
        apply List.mem_append_left
        unfold warnRepeated
        rw [if_pos hcond]
        exact List.mem_singleton.2 rfl

/-- Witness for C5 at `flag(["--tag"], h, {repeatable:true})` with argv
`["--tag","dev","--tag","prod"]`. -/
theorem c5_occurrence_aggregation_witness :
    exFlagTag.type = DefType.flag ∧
      0 < occurrenceCount exFlagTag ["--tag", "dev", "--tag", "prod"] ∧
      ((flagOcc ["--tag", "dev", "--tag", "prod"] (initState []) exFlagTag).values.length =
          occurrenceCount exFlagTag ["--tag", "dev", "--tag", "prod"] ∧
        lookupFlag
            (processDef ["--tag", "dev", "--tag", "prod"] (initState [])
              exFlagTag).context.flags
            exFlagTag.«alias».primary =
          some (if exFlagTag.options.repeatable then
              StoredValue.list
                (flagOcc ["--tag", "dev", "--tag", "prod"] (initState []) exFlagTag).values
            else StoredValue.single
              ((flagOcc ["--tag", "dev", "--tag", "prod"] (initState [])
                  exFlagTag).values.getLastD (FlagValue.bool true))) ∧
        ∃ W, (processDef ["--tag", "dev", "--tag", "prod"] (initState [])
              exFlagTag).warnings = (initState []).warnings ++ W ∧
          (Warning.nonRepeatable DefType.flag exFlagTag.«alias».primary
              (occurrenceCount exFlagTag ["--tag", "dev", "--tag", "prod"]) ∈ W ↔
            exFlagTag.options.repeatable = false ∧
              1 < occurrenceCount exFlagTag ["--tag", "dev", "--tag", "prod"])) :=
  ⟨rfl, by decide,
    c5_occurrence_aggregation ["--tag", "dev", "--tag", "prod"] (initState []) exFlagTag
      rfl (by decide)⟩

/-- C3: the default-fallback arbiter fires a definition iff no definition had
any occurrence anywhere in argv (matchedAny is exactly "some definition
occurs"); the fired definition is the first-declared `default: true` one (so
at most one default fires per call), and a multiple-defaults warning naming
the chosen definition's primary alias is present exactly when the arbiter ran
with more than one default declared. -/
theorem c3_default_arbiter (defs : List Definition) (argv : List String) :
    (cli defs argv).matchedAny = defs.any (fun d => hasOccurrence d argv) ∧
    (cli defs argv).defaultFired =
      (if (cli defs argv).matchedAny then none
       else (firstDefaultFrom 0 defs).map Prod.fst) ∧
    (∀ i d, firstDefaultFrom 0 defs = some (i, d) →
      defs.get? i = some d ∧ d.options.default = true ∧
        ∀ m, m < i → ∀ d', defs.get? m = some d' → d'.options.default = false) ∧
    (∀ c, Warning.multipleDefaults c ∈ (cli defs argv).warnings ↔
      ((cli defs argv).matchedAny = false ∧ 1 < countDefaults defs ∧
        ∃ i d, firstDefaultFrom 0 defs = some (i, d) ∧ c = d.«alias».primary)) := by
  have hma : (cli defs argv).matchedAny = (phase2 defs argv).matchedAny := by
    rw [cli_matchedAny, cliPhases14_matchedAny]
  refine ⟨?_, ?_, ?_, ?_⟩
  · rw [hma, phase2_matchedAny]
  · rw [cli_defaultFired, cliPhases14_defaultFired, hma]
  · intro i d hsel
    obtain ⟨k, hk, hget, hdef, hfirst⟩ := firstDefaultFrom_first defs 0 i d hsel
    have hk0 : i = k := by omega
    subst hk0
    exact ⟨hget, hdef, hfirst⟩
  · intro c
    obtain ⟨Wrest, hWP, hsplit⟩ := cli_warnings_split defs argv
    rw [hsplit, hma]
    constructor
    · intro hmem
      rcases List.mem_append.1 hmem with hmem | hmem
      · rcases List.mem_append.1 hmem with hmem | hmem
        · rcases List.mem_append.1 hmem with hmem | hmem
          · rcases List.mem_append.1 hmem with hmem | hmem
            · have := phase2_warnings defs argv _ hmem
              simp [Warning.fromParsing] at this
            · obtain ⟨t, p, msg, heq⟩ := dispatchFrom_warnings (phase2 defs argv).context
                (phase2 defs argv).processedFlags defs 0 _ hmem
              exact absurd heq (by simp)
          · revert hmem
            split
            · intro hmem
              simp at hmem
            · next hma2 =>
              intro hmem
              have hma' : (phase2 defs argv).matchedAny = false := by
                cases hm : (phase2 defs argv).matchedAny
                · rfl
                · exact absurd hm hma2
              rw [mem_multiWarn] at hmem
              obtain ⟨hcount, i, d, hsel, rfl⟩ := hmem
              exact ⟨hma', hcount, i, d, hsel, rfl⟩
        · have := (hWP _ hmem).1
          simp [Warning.isMultiDefault] at this
      · revert hmem
        split
        · intro hmem
          simp at hmem
        · intro hmem
          simp at hmem
    · rintro ⟨hma', hcount, i, d, hsel, rfl⟩
      apply List.mem_append_left
      apply List.mem_append_left
      apply List.mem_append_right
      rw [hma']
      simp only [Bool.false_eq_true, if_false]
      rw [mem_multiWarn]
      exact ⟨hcount, i, d, hsel, rfl⟩

/-- Witness for C3 on two default commands (`a` and `b`) with empty argv: the
multiple-defaults warning naming "a" is emitted and the first-declared
default fires. -/
theorem c3_default_arbiter_witness :
    Warning.multipleDefaults "a" ∈ (cli [exDefaultA, exDefaultB] []).warnings ∧
      (cli [exDefaultA, exDefaultB] []).defaultFired = some 0 := by
  constructor
  · apply ((c3_default_arbiter [exDefaultA, exDefaultB] []).2.2.2 "a").2
    exact ⟨by decide, by decide, 0, exDefaultA, rfl, rfl⟩
  · rw [(c3_default_arbiter [exDefaultA, exDefaultB] []).2.1]
    decide

/-- Handler independence of the caught-failure model: over rejected-promise
failures a definition's handler is invoked iff the definition was matched,
each failing invocation is reported with the definition's kind and primary
alias, and the entire resolution outcome — context, fired set, default
selection, unknown tokens — depends only on the definitions' handler-free
shapes.  By `cliJs_no_throw` this describes every call whose handlers never
throw synchronously; a synchronous throw escapes the `.catch` wrapper and
voids it (the call rejects and the later phases are skipped — see
`cliJs`). -/
theorem cli_handler_independence (defs : List Definition) (argv : List String) :
    (∀ i d, defs.get? i = some d →
      (i ∈ (cli defs argv).fired ↔
        wasMatched (phase2 defs argv).context (phase2 defs argv).processedFlags d =
          true)) ∧
    (∀ i d msg, defs.get? i = some d →
      wasMatched (phase2 defs argv).context (phase2 defs argv).processedFlags d = true →
      d.handler (phase2 defs argv).context = Except.error msg →
      Warning.handlerError false d.type d.«alias».primary msg ∈
        (cli defs argv).warnings) ∧
    (∀ defs2, defs.map Definition.shape = defs2.map Definition.shape →
      (cli defs argv).context = (cli defs2 argv).context ∧
      (cli defs argv).fired = (cli defs2 argv).fired ∧
      (cli defs argv).defaultFired = (cli defs2 argv).defaultFired ∧
      (cli defs argv).unknownArgs = (cli defs2 argv).unknownArgs) := by
  refine ⟨?_, ?_, ?_⟩
  · intro i d hget
    rw [cli_fired, cliPhases14_fired]
    have := dispatchFrom_mem (phase2 defs argv).context (phase2 defs argv).processedFlags
      defs 0 i d hget
    rw [Nat.zero_add] at this
    exact this
  · intro i d msg hget hm herr
    have hmem := dispatchFrom_err (phase2 defs argv).context
      (phase2 defs argv).processedFlags defs 0 i d msg hget hm herr
    obtain ⟨Wrest, hWP, hsplit⟩ := cli_warnings_split defs argv
    rw [hsplit]
    apply List.mem_append_left
    apply List.mem_append_left
    apply List.mem_append_left
    exact List.mem_append_right _ hmem
  · intro defs2 h
    have hka : collectAliases ([], []) defs = collectAliases ([], []) defs2 :=
      collectAliases_shape defs defs2 ([], []) h
    have hst : phase2 defs argv = phase2 defs2 argv := by
      unfold phase2
      rw [hka, processDefs_shape argv defs defs2 _ h]
    have hdisp : (dispatchFrom (phase2 defs2 argv).context
          (phase2 defs2 argv).processedFlags 0 defs).1 =
        (dispatchFrom (phase2 defs2 argv).context
          (phase2 defs2 argv).processedFlags 0 defs2).1 :=
      dispatchFrom_fst_shape _ _ defs defs2 0 h
    have hsel := firstDefaultFrom_shape defs defs2 0 h
    have hfields : (cliPhases14 defs argv).context = (cliPhases14 defs2 argv).context ∧
        (cliPhases14 defs argv).fired = (cliPhases14 defs2 argv).fired ∧
        (cliPhases14 defs argv).defaultFired = (cliPhases14 defs2 argv).defaultFired ∧
        (cliPhases14 defs argv).usedValues = (cliPhases14 defs2 argv).usedValues ∧
        (cliPhases14 defs argv).processedFlags =
          (cliPhases14 defs2 argv).processedFlags ∧
        (cliPhases14 defs argv).knownAliases = (cliPhases14 defs2 argv).knownAliases := by
      cases hma : (phase2 defs2 argv).matchedAny
      · rw [cliPhases14_unmatched defs argv (by rw [hst]; exact hma),
          cliPhases14_unmatched defs2 argv hma, hst, hka]
        obtain ⟨hc, hu, hcons, hpf, hdf⟩ :=
          runDefaultWith_noWarnFields argv (phase2 defs2 argv).context
            (phase2 defs2 argv).usedValues (phase2 defs2 argv).consumed
            (phase2 defs2 argv).processedFlags
            ((phase2 defs2 argv).warnings ++
              (dispatchFrom (phase2 defs2 argv).context
                (phase2 defs2 argv).processedFlags 0 defs).2)
            ((phase2 defs2 argv).warnings ++
              (dispatchFrom (phase2 defs2 argv).context
                (phase2 defs2 argv).processedFlags 0 defs2).2)
            (multiWarn defs) (multiWarn defs2)
            (firstDefaultFrom 0 defs) (firstDefaultFrom 0 defs2) hsel
        exact ⟨hc, by rw [hdisp], hdf, hu, hpf, rfl⟩
      · rw [cliPhases14_matched defs argv (by rw [hst]; exact hma),
          cliPhases14_matched defs2 argv hma, hst, hka]
        exact ⟨rfl, by rw [hdisp], rfl, rfl, rfl, rfl⟩
    obtain ⟨hc, hfired, hdf, hu, hpf, hkn⟩ := hfields
    have hunk : (cli defs argv).unknownArgs = (cli defs2 argv).unknownArgs := by
      rw [cli_unknownArgs_eq, cli_unknownArgs_eq, hc, hu, hpf, hkn]
    exact ⟨by rw [cli_context, cli_context, hc],
      by rw [cli_fired, cli_fired, hfired],
      by rw [cli_defaultFired, cli_defaultFired, hdf], hunk⟩

/-- Instance of handler independence: a flag whose handler rejects with
"boom" still appears in the fired set and its failure is reported with kind
and primary alias. -/
theorem cli_handler_independence_on_reject :
    ((([exFlagErr].get? 0 = some exFlagErr) ∧
        wasMatched (phase2 [exFlagErr] ["-e"]).context
          (phase2 [exFlagErr] ["-e"]).processedFlags exFlagErr = true ∧
        exFlagErr.handler (phase2 [exFlagErr] ["-e"]).context = Except.error "boom") ∧
      Warning.handlerError false exFlagErr.type exFlagErr.«alias».primary "boom" ∈
        (cli [exFlagErr] ["-e"]).warnings) ∧
      (0 ∈ (cli [exFlagErr] ["-e"]).fired ↔
        wasMatched (phase2 [exFlagErr] ["-e"]).context
          (phase2 [exFlagErr] ["-e"]).processedFlags exFlagErr = true) :=
  ⟨⟨⟨rfl, by decide, rfl⟩,
      (cli_handler_independence [exFlagErr] ["-e"]).2.1 0 exFlagErr "boom" rfl
        (by decide) rfl⟩,
    (cli_handler_independence [exFlagErr] ["-e"]).1 0 exFlagErr rfl⟩

/-- Matching a three-outcome definition agrees with matching its
caught-failure image. -/
theorem wasMatchedJs_toCaught (ctx : Context) (pf : List String) (d : DefinitionJs) :
    wasMatchedJs ctx pf d = wasMatched ctx pf d.toCaught := rfl

/-- When none of the listed handlers throws synchronously on the dispatch
context, phase 3 over three-outcome definitions computes exactly the
caught-failure phase 3 of their images and reports no escaped throw. -/
theorem dispatchJsFrom_no_throw (ctx : Context) (pf : List String)
    (defs : List DefinitionJs) (i : Nat)
    (h : ∀ d ∈ defs, ∀ msg, d.handler ctx ≠ HandlerResult.thrown msg) :
    dispatchJsFrom ctx pf i defs =
      ((dispatchFrom ctx pf i (defs.map DefinitionJs.toCaught)).1,
        (dispatchFrom ctx pf i (defs.map DefinitionJs.toCaught)).2, none) := by
  induction defs generalizing i with
  | nil => rfl
  | cons d rest ih =>
    have hrest : ∀ x ∈ rest, ∀ msg, x.handler ctx ≠ HandlerResult.thrown msg :=
      fun x hx => h x (List.mem_cons_of_mem d hx)
    have hdn : ∀ msg, d.handler ctx ≠ HandlerResult.thrown msg :=
      h d (List.mem_cons_self d rest)
    simp only [dispatchJsFrom, List.map_cons, dispatchFrom, wasMatchedJs_toCaught]
    cases hm : wasMatched ctx pf d.toCaught
    · simp only [Bool.false_eq_true, if_false]
      exact ih (i + 1) hrest
    · simp only [if_true]
      have hcv : d.toCaught.handler ctx =
          (match d.handler ctx with
            | HandlerResult.ok => Except.ok ()
            | HandlerResult.rejected msg => Except.error msg
            | HandlerResult.thrown msg => Except.error msg) := rfl
      cases hh : d.handler ctx with
      | ok =>
        simp only [hh] at hcv
        simp only [hh, hcv, ih (i + 1) hrest, DefinitionJs.toCaught]
      | rejected msg =>
        simp only [hh] at hcv
        simp only [hh, hcv, ih (i + 1) hrest, DefinitionJs.toCaught]
      | thrown msg => exact absurd hh (hdn msg)

/-- The first caught-failure default of the mapped list is the image of the
first three-outcome default. -/
theorem firstDefaultFrom_toCaught (defs : List DefinitionJs) :
    ∀ i : Nat,
      firstDefaultFrom i (defs.map DefinitionJs.toCaught) =
        Option.map (fun p : Nat × DefinitionJs => (p.1, DefinitionJs.toCaught p.2))
          (firstDefaultJsFrom i defs) := by
  induction defs with
  | nil => intro i; rfl
  | cons d rest ih =>
    intro i
    simp only [List.map_cons, firstDefaultFrom, firstDefaultJsFrom]
    have hcd : (DefinitionJs.toCaught d).options.default = d.options.default := rfl
    rw [hcd]
    cases hd : d.options.default
    · simp only [Bool.false_eq_true, if_false]
      exact ih (i + 1)
    · simp only [if_true, Option.map]

/-- A definition selected by `firstDefaultJsFrom` belongs to the scanned
list. -/
theorem firstDefaultJsFrom_mem (defs : List DefinitionJs) :
    ∀ (i j : Nat) (d : DefinitionJs),
      firstDefaultJsFrom i defs = some (j, d) → d ∈ defs := by
  induction defs with
  | nil => intro i j d h; cases h
  | cons x rest ih =>
    intro i j d h
    simp only [firstDefaultJsFrom] at h
    cases hx : x.options.default
    · rw [hx, if_neg (by simp)] at h
      exact List.mem_cons_of_mem x (ih (i + 1) j d h)
    · rw [hx, if_pos rfl] at h
      have hxd : x = d := by
        injection h with h2
        exact congrArg Prod.snd h2
      subst hxd
      exact List.mem_cons_self x rest

/-- Value of the handler-outcome pair of `runDefaultJsWith` when the result
is not a synchronous throw: it is the caught-failure warning list of the
image handler, with no escaped throw. -/
theorem hwBridge (r : HandlerResult) (t : Bool) (ty : DefType) (p : String)
    (h : ∀ msg, r ≠ HandlerResult.thrown msg) :
    (match r with
      | HandlerResult.ok => (([] : List Warning), (none : Option String))
      | HandlerResult.rejected msg => ([Warning.handlerError t ty p msg], none)
      | HandlerResult.thrown msg => ([], some msg)) =
      ((match (match r with
          | HandlerResult.ok => (Except.ok () : Except String Unit)
          | HandlerResult.rejected msg => Except.error msg
          | HandlerResult.thrown msg => Except.error msg) with
        | Except.ok _ => ([] : List Warning)
        | Except.error msg => [Warning.handlerError t ty p msg]), none) := by
  cases r with
  | ok => rfl
  | rejected msg => rfl
  | thrown msg => exact absurd rfl (h msg)

/-- When the selected default definition's handler does not throw
synchronously, phase 4 over three-outcome definitions computes exactly the
caught-failure phase 4 of the image selection and reports no escaped
throw. -/
theorem runDefaultJsWith_no_throw (argv : List String) (ctx : Context)
    (u c pf : List String) (w wm : List Warning)
    (sel : Option (Nat × DefinitionJs))
    (h : ∀ j d, sel = some (j, d) → ∀ ctx1 msg,
      d.handler ctx1 ≠ HandlerResult.thrown msg) :
    runDefaultJsWith argv ctx u c pf w wm sel =
      (runDefaultWith argv ctx u c pf w wm
        (Option.map (fun p : Nat × DefinitionJs => (p.1, DefinitionJs.toCaught p.2)) sel),
        none) := by
  cases sel with
  | none => rfl
  | some p =>
    obtain ⟨i, d⟩ := p
    have hd : ∀ ctx1 msg, d.handler ctx1 ≠ HandlerResult.thrown msg := h i d rfl
    simp only [runDefaultJsWith, runDefaultWith, Option.map, DefinitionJs.toCaught]
    cases hty : d.type
    · dsimp only
      rw [hwBridge _ _ _ _ (hd _)]
    · dsimp only
      rw [hwBridge _ _ _ _ (hd _)]

/-- Bridge between the two models: on handlers that never throw
synchronously (every failure a rejected promise), the three-outcome call
reports no escaped throw and computes exactly the caught-failure call of the
image definitions — so every theorem about `cli` describes the program on
that fragment, and only a synchronous throw can separate them. -/
theorem cliJs_no_throw (definitions : List DefinitionJs) (argv : List String)
    (h : ∀ d ∈ definitions, ∀ ctx msg, d.handler ctx ≠ HandlerResult.thrown msg) :
    cliJs definitions argv =
      (cli (definitions.map DefinitionJs.toCaught) argv, none) := by
  have hdisp := dispatchJsFrom_no_throw
    (phase2 (definitions.map DefinitionJs.toCaught) argv).context
    (phase2 (definitions.map DefinitionJs.toCaught) argv).processedFlags
    definitions 0 (fun d hd msg => h d hd _ msg)
  have hsel : ∀ j d, firstDefaultJsFrom 0 definitions = some (j, d) →
      ∀ ctx1 msg, d.handler ctx1 ≠ HandlerResult.thrown msg :=
    fun j d hjd ctx1 msg => h d (firstDefaultJsFrom_mem definitions 0 j d hjd) ctx1 msg
  simp only [cliJs, cli, cliPhases14, runDefault]
  rw [hdisp, firstDefaultFrom_toCaught,
    runDefaultJsWith_no_throw _ _ _ _ _ _ _ _ hsel]
  cases hma : (phase2 (definitions.map DefinitionJs.toCaught) argv).matchedAny
  · simp only [Bool.false_eq_true, if_false]
  · simp only [if_true]

/-- Witness for the bridge: on the ok- and rejected-handler flags the
three-outcome call agrees with the caught-failure call and reports no
escaped throw. -/
theorem cliJs_no_throw_on_reject :
    cliJs [exFlagRejectJs, exFlagOkJs] ["-r"] =
      (cli ([exFlagRejectJs, exFlagOkJs].map DefinitionJs.toCaught) ["-r"], none) :=
  cliJs_no_throw [exFlagRejectJs, exFlagOkJs] ["-r"]
    (by intro d hd ctx msg
        simp only [List.mem_cons, List.mem_singleton] at hd
        rcases hd with h1 | h1 | h1
        all_goals first
          | (subst h1; simp [exFlagRejectJs, exFlagOkJs])
          | cases h1)

/-- C2: refuted as stated — a handler failure is caught and reported only
when it is a rejected promise.  A synchronously-throwing handler escapes
`Promise.resolve(handler(context)).catch` (`cli.ts` line 310) because the
exception is raised while `handler(context)` is evaluated, before the
`.catch` attaches: with `flag(["-t"],throws,{isBoolean:true})` and
`flag(["-o"],ok,{isBoolean:true})` on `["-t","-o","zzz"]` the call rejects
with the thrown message, the second matched handler never fires, no
handler-error warning is recorded, and phase 5 never reports the unknown
token "zzz".  The same call with a rejected-promise failure
(`flag(["-r"],rejects,{isBoolean:true})`) is fully isolated: both handlers
fire, the failure becomes a warning, the call resolves to its Context, and
"zzz" is reported unknown. -/
theorem c2_sync_throw_escapes :
    ((cliJs [exFlagThrow, exFlagOkJs] ["-t", "-o", "zzz"]).2 = some "boom" ∧
      (cliJs [exFlagThrow, exFlagOkJs] ["-t", "-o", "zzz"]).1.fired = [0] ∧
      (cliJs [exFlagThrow, exFlagOkJs] ["-t", "-o", "zzz"]).1.warnings = [] ∧
      (cliJs [exFlagThrow, exFlagOkJs] ["-t", "-o", "zzz"]).1.unknownArgs = []) ∧
    ((cliJs [exFlagRejectJs, exFlagOkJs] ["-r", "-o", "zzz"]).2 = none ∧
      (cliJs [exFlagRejectJs, exFlagOkJs] ["-r", "-o", "zzz"]).1.fired = [0, 1] ∧
      (cliJs [exFlagRejectJs, exFlagOkJs] ["-r", "-o", "zzz"]).1.warnings =
        [Warning.handlerError false DefType.flag "-r" "boom",
          Warning.unknownArgs ["zzz"]] ∧
      (cliJs [exFlagRejectJs, exFlagOkJs] ["-r", "-o", "zzz"]).1.unknownArgs =
        ["zzz"]) := by
  decide

/-- C8 counterexample: `exFlagXShort` (`flag(["-x"])`) has zero occurrences in
argv `["--long"]`, yet its handler fires (index 1 is in the fired set),
because `exFlagXLong` (`flag(["-x","--long"])`) shares the primary alias
`-x` and was occurrence-matched — refuting "the flag's handler does not
fire" for zero-occurrence flags as stated. -/
theorem c8_counterexample :
    occurrenceCount exFlagXShort ["--long"] = 0 ∧
    (cli [exFlagXLong, exFlagXShort] ["--long"]).fired = [0, 1] := by
  refine ⟨?_, ?_⟩ <;> decide

/-- C8 (amended): for a flag with zero occurrences, the synthesized value
(`defaultValue ?? false` when boolean, else `defaultValue`) is stored under
the primary alias when defined (list-wrapped if repeatable); the
missing-required warning is emitted iff `isRequired` holds and no value
resolved; the definition adds nothing to the processed-flag set; and the
flag's handler does not fire — unless the flag's primary alias coincides
with that of an occurrence-matched flag, or the flag is selected as the
default fallback. -/
theorem c8_zero_occurrence_flag (argv : List String) (st : PState) (d : Definition)
    (defs : List Definition) (hty : d.type = DefType.flag)
    (hocc : ¬0 < occurrenceCount d argv) :
    (∀ v, flagAbsentValue d = some v →
      lookupFlag (processDef argv st d).context.flags d.«alias».primary =
        some (if d.options.repeatable then StoredValue.list [v]
          else StoredValue.single v)) ∧
    (flagAbsentValue d = none →
      (processDef argv st d).context.flags = st.context.flags) ∧
    (processDef argv st d).processedFlags = st.processedFlags ∧
    ((processDef argv st d).warnings = st.warnings ++
      (if d.options.isRequired = true ∧ flagAbsentValue d = none then
        [Warning.missingRequired d.«alias».primary]
      else [])) ∧
    (∀ i, defs.get? i = some d →
      d.«alias».primary ∉ (phase2 defs argv).processedFlags →
      ¬((phase2 defs argv).matchedAny = false ∧
        ∃ d0, firstDefaultFrom 0 defs = some (i, d0)) →
      i ∉ (cli defs argv).fired ∧ (cli defs argv).defaultFired ≠ some i) := by
  rw [processDef_flag_absent argv st d hty hocc]
  refine ⟨?_, ?_, rfl, rfl, ?_⟩
  · intro v hv
    simp only [hv]
    rw [lookupFlag_setKey]
  · intro hv
    simp only [hv]
  · intro i hget hpf hdef
    constructor
    · rw [cli_fired, cliPhases14_fired]
      have hiff := dispatchFrom_mem (phase2 defs argv).context
        (phase2 defs argv).processedFlags defs 0 i d hget
      rw [Nat.zero_add] at hiff
      intro hmem
      have hm := hiff.1 hmem
      unfold wasMatched at hm
      rw [hty] at hm
      rw [decide_eq_true_eq] at hm
      exact hpf hm
    · rw [cli_defaultFired, cliPhases14_defaultFired]
      cases hma : (phase2 defs argv).matchedAny
      · simp only [Bool.false_eq_true, if_false]
        intro hmap
        cases hsel : firstDefaultFrom 0 defs with
        | none => rw [hsel] at hmap; exact Option.noConfusion hmap
        | some p =>
          obtain ⟨j, d0⟩ := p
          rw [hsel] at hmap
          simp only [Option.map] at hmap
          injection hmap with hmap
          exact hdef ⟨hma, d0, by rw [hsel, hmap]⟩
      · simp

/-- Witness for the amended C8 at `[flag(["--name"], h,
{defaultValue:"Guest"})]` with empty argv: the default is stored, no
missing-required warning appears, and the handler does not fire. -/
theorem c8_zero_occurrence_flag_witness :
    (exFlagName.type = DefType.flag ∧ ¬0 < occurrenceCount exFlagName []) ∧
      (lookupFlag (processDef [] (initState []) exFlagName).context.flags
          exFlagName.«alias».primary =
        some (if exFlagName.options.repeatable then
            StoredValue.list [FlagValue.str "Guest"]
          else StoredValue.single (FlagValue.str "Guest"))) ∧
      (0 ∉ (cli [exFlagName] []).fired ∧
        (cli [exFlagName] []).defaultFired ≠ some 0) := by
  have h := c8_zero_occurrence_flag [] (initState []) exFlagName [exFlagName] rfl
    (by decide)
  refine ⟨⟨rfl, by decide⟩, h.1 (FlagValue.str "Guest") rfl, ?_⟩
  apply h.2.2.2.2 0 rfl (by decide)
  rintro ⟨_, d0, hd0⟩
  exact Option.noConfusion hd0

end Clizen
